import Mathlib

/-!
# Verification of the generation queue and execution engine

A shallow embedding, in Lean 4, of the core of the `benana` desktop
application: the generation queue (`electron/studio/queue.ts`), the durable
store's queue/image operations (`electron/studio/db.ts`), the remote
generation client (`electron/studio/gemini-client.ts`), the artifact store
(`electron/studio/image-store.ts`) and the config store's normalization
functions (`electron/studio/config.ts`).

JavaScript numbers are modelled as rationals (`ℚ`), with an explicit `nan`
constructor where `NaN` handling matters; timestamps and identifiers are
natural numbers (a fresh-identifier counter stands in for UUID generation);
the SQLite tables are lists of row structures; effectful steps (file system,
network) take an explicit oracle of step outcomes.
-/

namespace Benana

/-! ## Shared types (`shared/types.ts`) -/

/-- `Resolution = '1K' | '2K' | '4K'` from `shared/types.ts`. -/
inductive Resolution where
  | r1K
  | r2K
  | r4K
deriving DecidableEq, Repr

/-- The wire string of each `Resolution` literal in `shared/types.ts`. -/
def Resolution.wire : Resolution → String
  | .r1K => "1K"
  | .r2K => "2K"
  | .r4K => "4K"

instance : Fintype Resolution :=
  ⟨⟨{Resolution.r1K, Resolution.r2K, Resolution.r4K}, by decide⟩, by
    intro x; cases x <;> decide⟩

/-- `ModelName` union type from `shared/types.ts`. -/
inductive ModelName where
  | gemini3ProImagePreview
  | gemini25FlashImage
  | gemini25FlashImagePreview
deriving DecidableEq, Repr

/-- Wire string of each `ModelName` literal. -/
def ModelName.wire : ModelName → String
  | .gemini3ProImagePreview => "gemini-3-pro-image-preview"
  | .gemini25FlashImage => "gemini-2.5-flash-image"
  | .gemini25FlashImagePreview => "gemini-2.5-flash-image-preview"

/-- `ReferenceLabel = 'person' | 'object' | 'style'`. -/
inductive ReferenceLabel where
  | person
  | object
  | style
deriving DecidableEq, Repr

/-- `ReferenceImagePayload` from `shared/types.ts` (the `id` field is kept
as an optional string, as in the source). -/
structure ReferenceImagePayload where
  id : Option String := none
  name : String
  mimeType : String
  dataBase64 : String
  label : Option ReferenceLabel := none
deriving DecidableEq, Repr

/-- `GenerationRequest` from `shared/types.ts`, restricted to the fields the
core queue/client/store read (the aspect-ratio and thinking-level fields are
passed through opaquely by the code under verification and are omitted).
`batchCount` is an integer-valued JS number. -/
structure GenerationRequest where
  model : ModelName
  prompt : String
  systemPrompt : Option String := none
  referenceImages : Option (List ReferenceImagePayload) := none
  resolution : Option Resolution := none
  useGoogleSearch : Bool := false
  batchCount : Option ℤ := none
  parentId : Option ℕ := none
  projectId : Option ℕ := none
deriving DecidableEq, Repr

/-- `QueueStatus` from `shared/types.ts`. -/
inductive QueueStatus where
  | pending
  | running
  | completed
  | failed
  | cancelled
deriving DecidableEq, Repr

/-- `QueueJob` row as stored in the `queue_jobs` table (`db.ts`). -/
structure QueueJob where
  id : ℕ
  status : QueueStatus
  request : GenerationRequest
  resultId : Option ℕ := none
  error : Option String := none
  priority : ℤ := 0
  createdAt : ℕ
  startedAt : Option ℕ := none
  completedAt : Option ℕ := none
deriving DecidableEq, Repr

/-! ## Config store normalization (`electron/studio/config.ts`) -/

/-- A JavaScript number: either `NaN` or a finite value (modelled as `ℚ`). -/
inductive JsNum where
  | nan
  | num (q : ℚ)
deriving DecidableEq, Repr

/-- `value.toFixed(3)` read back as a number: round to the nearest
thousandth, halves away from zero for the positive inputs this is applied
to. -/
def toFixed3 (q : ℚ) : ℚ := (round (q * 1000) : ℚ) / 1000

/-- `normalizeSpendLimit` from `config.ts`: `null`/`undefined`/`NaN`
become `null`, non-positive values become `null`, and positive values are
rounded to three decimal places. -/
def normalizeSpendLimit (value : Option JsNum) : Option ℚ :=
  match value with
  | none => none
  | some .nan => none
  | some (.num q) => if q ≤ 0 then none else some (toFixed3 q)

/-- The spend-limit fields of the raw `StudioConfigFile` (`config.ts`). -/
structure StudioConfigFile where
  monthlySpendLimitUsd : Option JsNum := none
  totalSpendLimitUsd : Option JsNum := none
deriving DecidableEq, Repr

/-- The spend-limit fields of `StudioConfigPublic` as produced by
`getPublicConfig` (`config.ts`): both limits pass through
`normalizeSpendLimit`. -/
structure StudioConfigPublic where
  monthlySpendLimitUsd : Option ℚ
  totalSpendLimitUsd : Option ℚ
deriving DecidableEq, Repr

/-- `getPublicConfig` from `config.ts`, restricted to the spend-limit
fields. -/
def getPublicConfig (config : StudioConfigFile) : StudioConfigPublic :=
  { monthlySpendLimitUsd := normalizeSpendLimit config.monthlySpendLimitUsd
    totalSpendLimitUsd := normalizeSpendLimit config.totalSpendLimitUsd }

/-! ## Cost estimation and concurrency clamping (`queue.ts`) -/

/-- `estimateCost` from `queue.ts`: `'4K'` costs `0.24`, everything else
(including an absent resolution) costs `0.134`. -/
def estimateCost (resolution : Option Resolution) : ℚ :=
  if resolution = some .r4K then 24 / 100 else 134 / 1000

/-- `clampConcurrency` from `queue.ts`:
`Math.min(8, Math.max(1, Math.floor(value)))`. -/
def clampConcurrency (value : ℚ) : ℕ :=
  (min 8 (max 1 ⌊value⌋)).toNat

/-- `normalizeResolutionForModel` from `gemini-client.ts`: an absent
resolution stays absent; the two flash ("fast tier") models are forced to
`'1K'`; other models pass the requested resolution through. -/
def normalizeResolutionForModel (model : ModelName) (resolution : Option Resolution) :
    Option Resolution :=
  match resolution with
  | none => none
  | some r =>
      if model = .gemini25FlashImage ∨ model = .gemini25FlashImagePreview then
        some .r1K
      else
        some r

/-- Pricing-tier rank of each resolution (1K below 2K below 4K), used to
state that the fast-tier downgrade target is the lowest supported tier. -/
def Resolution.rank : Resolution → ℕ
  | .r1K => 0
  | .r2K => 1
  | .r4K => 2

/-! ## Durable-store queue operations (`electron/studio/db.ts`)

The `queue_jobs` table is a list of `QueueJob` rows in insertion order;
`CURRENT_TIMESTAMP` is the queue state's clock value at the time of the
mutation. -/

/-- `insertQueueJob` from `db.ts`: appends a row. -/
def insertQueueJob (jobs : List QueueJob) (job : QueueJob) : List QueueJob :=
  jobs ++ [job]

/-- `getQueueJobById` from `db.ts` (`WHERE id = ? LIMIT 1`). -/
def getQueueJobById (jobs : List QueueJob) (jobId : ℕ) : Option QueueJob :=
  jobs.find? fun j => j.id = jobId

/-- The `ORDER BY priority DESC, created_at ASC` comparison used by
`getNextPendingJob`. -/
def jobOrderedBefore (a b : QueueJob) : Bool :=
  b.priority < a.priority ∨ (a.priority = b.priority ∧ a.createdAt < b.createdAt)

/-- `getNextPendingJob` from `db.ts`: the highest-priority, oldest
`pending` row, or none. -/
def getNextPendingJob (jobs : List QueueJob) : Option QueueJob :=
  (jobs.filter fun j => j.status = .pending).foldl
    (fun best j =>
      match best with
      | none => some j
      | some b => if jobOrderedBefore j b then some j else some b)
    none

/-- `listOpenQueueJobs` from `db.ts`: all `pending` and `running` rows. -/
def listOpenQueueJobs (jobs : List QueueJob) : List QueueJob :=
  jobs.filter fun j => j.status = .pending ∨ j.status = .running

/-- `markQueueJobRunning` from `db.ts`: sets `status = 'running'` and
`started_at = CURRENT_TIMESTAMP` on the row with the given id. -/
def markQueueJobRunning (jobs : List QueueJob) (jobId : ℕ) (now : ℕ) : List QueueJob :=
  jobs.map fun j =>
    if j.id = jobId then { j with status := .running, startedAt := some now } else j

/-- `markQueueJobCompleted` from `db.ts`. -/
def markQueueJobCompleted (jobs : List QueueJob) (jobId : ℕ) (resultId : ℕ) (now : ℕ) :
    List QueueJob :=
  jobs.map fun j =>
    if j.id = jobId then
      { j with status := .completed, resultId := some resultId, completedAt := some now }
    else j

/-- `markQueueJobFailed` from `db.ts`. -/
def markQueueJobFailed (jobs : List QueueJob) (jobId : ℕ) (error : String) (now : ℕ) :
    List QueueJob :=
  jobs.map fun j =>
    if j.id = jobId then
      { j with status := .failed, error := some error, completedAt := some now }
    else j

/-- `markQueueJobCancelled` from `db.ts`: the `UPDATE` is guarded by
`WHERE id = ? AND status = 'pending'`. -/
def markQueueJobCancelled (jobs : List QueueJob) (jobId : ℕ) (now : ℕ) : List QueueJob :=
  jobs.map fun j =>
    if j.id = jobId ∧ j.status = .pending then
      { j with status := .cancelled, completedAt := some now }
    else j

/-- `requeueRunningJobs` from `db.ts`: every `running` row is reset to
`pending` with `started_at`, `completed_at` and `error` cleared. -/
def requeueRunningJobs (jobs : List QueueJob) : List QueueJob :=
  jobs.map fun j =>
    if j.status = .running then
      { j with status := .pending, startedAt := none, completedAt := none, error := none }
    else j

/-- The number of rows currently in `running` status. -/
def countRunning (jobs : List QueueJob) : ℕ :=
  (jobs.filter fun j => j.status = .running).length

/-- The number of rows currently in `pending` status. -/
def countPending (jobs : List QueueJob) : ℕ :=
  (jobs.filter fun j => j.status = .pending).length

/-! ## Generation queue (`electron/studio/queue.ts`) -/

/-- The data carried by the error thrown by `assertSingleLimit` in
`queue.ts`: the message string interpolates exactly the limit label, the
current spend, the reserved queue cost, the attempted additional cost and
the configured limit. -/
structure SpendLimitErr where
  label : String
  currentSpent : ℚ
  reservedQueueCost : ℚ
  additionalCost : ℚ
  limit : ℚ
deriving DecidableEq, Repr

/-- `assertSingleLimit` from `queue.ts`: an unset limit never rejects;
otherwise reject exactly when `current + reserved + additional` exceeds the
configured limit. -/
def assertSingleLimit (label : String) (configuredLimit : Option ℚ) (currentSpent : ℚ)
    (reservedQueueCost : ℚ) (additionalCost : ℚ) : Option SpendLimitErr :=
  match configuredLimit with
  | none => none
  | some limit =>
      if currentSpent + reservedQueueCost + additionalCost ≤ limit then none
      else some ⟨label, currentSpent, reservedQueueCost, additionalCost, limit⟩

/-- The scheduler state of `GenerationQueue` (`queue.ts`) together with the
durable-store state it reads: the job table, usage-log aggregates
(`getSessionCost('month')` and `getSessionCost('all')`), the public config's
spend limits, a fresh-id counter standing in for UUID generation, and a
clock. -/
structure QState where
  jobs : List QueueJob
  activeRuns : ℕ
  concurrency : ℕ
  paused : Bool
  nextId : ℕ
  now : ℕ
  spentMonth : ℚ
  spentAll : ℚ
  config : StudioConfigPublic
deriving DecidableEq, Repr

/-- `getReservedQueueCost` from `queue.ts`: sum of `estimateCost` over all
open (pending or running) jobs, skipping the optionally excluded job id. -/
def getReservedQueueCost (jobs : List QueueJob) (excludeQueueJobId : Option ℕ) : ℚ :=
  (listOpenQueueJobs jobs).foldl
    (fun sum j =>
      if excludeQueueJobId = some j.id then sum
      else sum + estimateCost j.request.resolution)
    0

/-- `assertSpendWithinLimits` from `queue.ts`, returning the error it would
throw (if any): a non-positive additional cost passes; otherwise the monthly
limit is checked first, then the total limit. -/
def assertSpendWithinLimits (s : QState) (estimatedAdditionalCost : ℚ)
    (excludeQueueJobId : Option ℕ) : Option SpendLimitErr :=
  if estimatedAdditionalCost ≤ 0 then none
  else
    let reservedQueueCost := getReservedQueueCost s.jobs excludeQueueJobId
    match assertSingleLimit "Monatslimit" s.config.monthlySpendLimitUsd s.spentMonth
        reservedQueueCost estimatedAdditionalCost with
    | some e => some e
    | none =>
        assertSingleLimit "Gesamtlimit" s.config.totalSpendLimitUsd s.spentAll
          reservedQueueCost estimatedAdditionalCost

/-- The admission + insertion phase of `enqueue` (`queue.ts`, lines 51-70):
normalizes `batchCount` to `[1, 4]`, checks spend limits against the whole
batch cost, and on admission inserts one `pending` row per unit with
`batchCount` forced to `1`, returning the new ids in creation order. -/
def enqueueInsert (s : QState) (request : GenerationRequest) :
    QState × Except SpendLimitErr (List ℕ) :=
  let requestedBatchCount := request.batchCount.getD 1
  let batchCount : ℤ := min 4 (max 1 requestedBatchCount)
  let estimatedBatchCost := estimateCost request.resolution * (batchCount : ℚ)
  match assertSpendWithinLimits s estimatedBatchCost none with
  | some e => (s, .error e)
  | none =>
      let n := batchCount.toNat
      let newJobs := (List.range n).map fun i =>
        { id := s.nextId + i
          status := .pending
          request := { request with batchCount := some 1 }
          priority := 0
          createdAt := s.now : QueueJob }
      ({ s with
          jobs := newJobs.foldl insertQueueJob s.jobs
          nextId := s.nextId + n },
        .ok ((List.range n).map (s.nextId + ·)))

/-- Marking a job running and incrementing the in-flight counter: the
synchronous head of `runJob` (`queue.ts`, lines 122-124). -/
def startJob (s : QState) (jobId : ℕ) : QState :=
  { s with
      activeRuns := s.activeRuns + 1
      jobs := markQueueJobRunning s.jobs jobId s.now }

/-- The dispatch loop body of `kick` (`queue.ts`, lines 106-119), with
explicit fuel: while the in-flight count is strictly below the concurrency
limit and a pending job exists, claim it. The fuel `s.jobs.length` always
suffices because each iteration consumes one pending row. -/
def kickAux : ℕ → QState → QState
  | 0, s => s
  | fuel + 1, s =>
      if s.activeRuns < s.concurrency then
        match getNextPendingJob s.jobs with
        | none => s
        | some job => kickAux fuel (startJob s job.id)
      else s

/-- `kick` from `queue.ts`: a no-op while paused, otherwise runs the
dispatch loop. -/
def kick (s : QState) : QState :=
  if s.paused then s else kickAux s.jobs.length s

/-- `enqueue` from `queue.ts`: admission + insertion, then `kick`. -/
def enqueue (s : QState) (request : GenerationRequest) :
    QState × Except SpendLimitErr (List ℕ) :=
  match enqueueInsert s request with
  | (s', .error e) => (s', .error e)
  | (s', .ok ids) => (kick s', .ok ids)

/-- `cancel` from `queue.ts`: returns false without touching anything
unless the job exists and is still `pending`; otherwise marks it cancelled
and returns true. -/
def cancel (s : QState) (jobId : ℕ) : QState × Bool :=
  match getQueueJobById s.jobs jobId with
  | none => (s, false)
  | some job =>
      if job.status = .pending then
        ({ s with jobs := markQueueJobCancelled s.jobs jobId s.now }, true)
      else
        (s, false)

/-- The outcome delivered to a job's `runJob` continuation: either the
persisted image id (success) or an error message (any failure). -/
inductive RunOutcome where
  | success (imageId : ℕ)
  | failure (message : String)
deriving DecidableEq, Repr

/-- Completion of an in-flight job (`runJob` lines 166-191): mark the
terminal status (recording the usage log on success), decrement the
in-flight counter (floored at zero, as `Math.max(0, activeRuns - 1)`), and
re-trigger the dispatch loop. Delivered only for a job actually `running`;
a completion for any other job is a no-op. -/
def finishRun (s : QState) (jobId : ℕ) (outcome : RunOutcome) : QState :=
  match getQueueJobById s.jobs jobId with
  | none => s
  | some job =>
      if job.status = .running then
        let costEstimate := estimateCost job.request.resolution
        let s' :=
          match outcome with
          | .success imageId =>
              { s with
                  jobs := markQueueJobCompleted s.jobs jobId imageId s.now
                  spentMonth := s.spentMonth + costEstimate
                  spentAll := s.spentAll + costEstimate }
          | .failure message =>
              { s with jobs := markQueueJobFailed s.jobs jobId message s.now }
        kick { s' with activeRuns := s'.activeRuns - 1 }
      else s

/-- The externally triggerable scheduler transitions. -/
inductive QAct where
  | enqueueReq (request : GenerationRequest)
  | finish (jobId : ℕ) (outcome : RunOutcome)
  | cancelJob (jobId : ℕ)
  | pauseQ
  | resumeQ
  | setConcurrencyQ (value : ℚ)
deriving DecidableEq, Repr

/-- One scheduler transition: `enqueue`, job completion, `cancel`,
`pause`, `resume` (which kicks) or `setConcurrency` (which clamps and
kicks), as in `queue.ts`. -/
def stepQ (s : QState) : QAct → QState
  | .enqueueReq request => (enqueue s request).1
  | .finish jobId outcome => finishRun s jobId outcome
  | .cancelJob jobId => (cancel s jobId).1
  | .pauseQ => { s with paused := true }
  | .resumeQ => kick { s with paused := false }
  | .setConcurrencyQ value => kick { s with concurrency := clampConcurrency value }

/-- A finite execution of the scheduler. -/
def applyActs (s : QState) (acts : List QAct) : QState :=
  acts.foldl stepQ s

/-- The state assembled by the `GenerationQueue` constructor before any
dispatch: concurrency clamped, `requeueRunningJobs` applied to the stored
job table (startup crash recovery), counters zeroed. -/
def initState (storedJobs : List QueueJob) (concurrency : ℚ) (config : StudioConfigPublic)
    (spentMonth spentAll : ℚ) (nextId now : ℕ) : QState :=
  { jobs := requeueRunningJobs storedJobs
    activeRuns := 0
    concurrency := clampConcurrency concurrency
    paused := false
    nextId := nextId
    now := now
    spentMonth := spentMonth
    spentAll := spentAll
    config := config }

/-- The `GenerationQueue` constructor (`queue.ts`, lines 25-36): clamp the
concurrency, requeue crash-leftover `running` jobs, then kick the dispatch
loop. -/
def mkQueue (storedJobs : List QueueJob) (concurrency : ℚ) (config : StudioConfigPublic)
    (spentMonth spentAll : ℚ) (nextId now : ℕ) : QState :=
  kick (initState storedJobs concurrency config spentMonth spentAll nextId now)

/-! ## Remote generation client (`electron/studio/gemini-client.ts`)

The HTTP layer is modelled by an oracle giving the outcome of each attempt
(1-based attempt numbers): a timeout, a non-HTTP network error, or a
response with a status code and a parsed JSON body. -/

/-- Constants from `gemini-client.ts`. -/
def MAX_RETRIES : ℕ := 3

/-- `RETRY_BASE_DELAY_MS` from `gemini-client.ts`. -/
def RETRY_BASE_DELAY_MS : ℕ := 800

/-- An `inlineData` record inside a response part: the `data` field is
only usable when it is a string, and `mimeType` may be absent. -/
structure GeminiInlineData where
  data : Option String
  mimeType : Option String
deriving DecidableEq, Repr

/-- One part of the first candidate's content. -/
structure GeminiPart where
  inlineData : Option GeminiInlineData
  text : Option String
deriving DecidableEq, Repr

/-- One candidate: `content.parts`, where `content` may be missing or
malformed (then no parts are extracted). -/
structure GeminiCandidate where
  content : Option (List GeminiPart)
deriving DecidableEq, Repr

/-- The parsed JSON body of a Gemini response: candidates, optional
usage metadata (input/output token counts) and — for error responses —
the `error.message` field consumed by `readErrorMessage`. -/
structure GeminiBody where
  candidates : List GeminiCandidate
  usageMetadata : Option (ℕ × ℕ) := none
  errorMessage : Option String := none
deriving DecidableEq, Repr

/-- An image part of the result (`GeminiImagePart` in the source). -/
structure GeminiImagePart where
  mimeType : String
  dataBase64 : String
deriving DecidableEq, Repr

/-- The per-attempt result of `generateOnce`, without the attempt count. -/
structure GeminiOnceResult where
  images : List GeminiImagePart
  modelText : Option String
  tokenUsage : Option (ℕ × ℕ)
deriving DecidableEq, Repr

/-- The errors `generateOnce` can throw: `GeminiHttpError` (carrying a
status; a timeout is converted to status 504 before this point), or a plain
`Error` (zero-image response, network failure, JSON failure). -/
inductive GenError where
  | http (status : ℕ) (message : String)
  | plain (message : String)
deriving DecidableEq, Repr

/-- `GeminiHttpError.isRetryable` from `gemini-client.ts`: status 429 or
at least 500. A plain `Error` is never retryable (the retry loop checks
`error instanceof GeminiHttpError`). -/
def GenError.isRetryable : GenError → Bool
  | .http status _ => status = 429 ∨ 500 ≤ status
  | .plain _ => false

/-- The outcome of one HTTP attempt, as seen by `generateOnce`. -/
inductive HttpAttempt where
  | timeout
  | netError (message : String)
  | response (status : ℕ) (body : GeminiBody)

/-- `extractCandidateParts` from `gemini-client.ts`: the parts of the
first candidate's content, or `[]`. -/
def extractCandidateParts (body : GeminiBody) : List GeminiPart :=
  match body.candidates.head? with
  | none => []
  | some candidate => candidate.content.getD []

/-- `extractInlineData` from `gemini-client.ts`: requires a string `data`
field with non-blank content; `mimeType` defaults to `image/png`. -/
def extractInlineData (part : GeminiPart) : Option (String × String) :=
  match part.inlineData with
  | none => none
  | some inline =>
      match inline.data with
      | none => none
      | some data =>
          if data.trim = "" then none
          else some (data, inline.mimeType.getD "image/png")

/-- `readErrorMessage` from `gemini-client.ts`: the body's
`error.message` if present, else a generic message with the status. -/
def readErrorMessage (body : GeminiBody) (status : ℕ) : String :=
  body.errorMessage.getD ("Gemini API request failed with " ++ toString status)

/-- `response.ok` of the Fetch API: status in `[200, 299]`. -/
def responseOk (status : ℕ) : Bool := 200 ≤ status ∧ status ≤ 299

/-- The image parts collected by the response-parsing loop of
`generateOnce`: one entry per part with usable inline data. -/
def extractImages (body : GeminiBody) : List GeminiImagePart :=
  (extractCandidateParts body).filterMap fun part =>
    (extractInlineData part).map fun inline =>
      { dataBase64 := inline.1, mimeType := inline.2 : GeminiImagePart }

/-- The trimmed non-blank text parts collected by the same loop. -/
def extractTexts (body : GeminiBody) : List String :=
  (extractCandidateParts body).filterMap fun part =>
    match part.text with
    | none => none
    | some t => if t.trim = "" then none else some t.trim

/-- `generateOnce` from `gemini-client.ts`: a timeout becomes a retryable
`GeminiHttpError` with status 504; a non-ok response becomes a
`GeminiHttpError` with its status; an ok response is parsed, and a response
with zero image parts is a plain (non-retryable) error. -/
def generateOnce (attempt : HttpAttempt) : Except GenError GeminiOnceResult :=
  match attempt with
  | .timeout => .error (.http 504 "Gemini API request timed out after 120 seconds.")
  | .netError message => .error (.plain message)
  | .response status body =>
      if responseOk status then
        let images := extractImages body
        let textParts := extractTexts body
        if images = [] then
          .error (.plain "Gemini hat fuer diese Anfrage keine Bild-Payload geliefert.")
        else
          .ok
            { images := images
              modelText :=
                if textParts = [] then none else some (String.intercalate "\n\n" textParts)
              tokenUsage := body.usageMetadata }
      else
        .error (.http status (readErrorMessage body status))

/-- The observable outcome of a full `generate` call: the final result,
how many attempts were made, and the backoff delays awaited between
attempts, in order. -/
structure GenRun where
  result : Except GenError GeminiOnceResult
  attempts : ℕ
  delays : List ℕ
deriving Repr

/-- The retry loop of `generate` (`gemini-client.ts`, lines 78-102), with
fuel `MAX_RETRIES - attempts` standing in for the `while` guard. After a
failed attempt `a` the loop continues only when the error is a retryable
`GeminiHttpError` and `a < MAX_RETRIES`, after waiting
`RETRY_BASE_DELAY_MS * 2 ^ (a - 1)`. -/
def generateGo (oracle : ℕ → HttpAttempt) : ℕ → ℕ → List ℕ → GenRun
  | 0, attempts, delays =>
      ⟨.error (.plain "Generierung fehlgeschlagen (ohne Details)."), attempts, delays⟩
  | fuel + 1, attempts, delays =>
      let a := attempts + 1
      match generateOnce (oracle a) with
      | .ok r => ⟨.ok r, a, delays⟩
      | .error e =>
          if e.isRetryable ∧ a < MAX_RETRIES then
            generateGo oracle fuel a (delays ++ [RETRY_BASE_DELAY_MS * 2 ^ (a - 1)])
          else
            ⟨.error e, a, delays⟩

/-- `generate` from `gemini-client.ts`. -/
def generate (oracle : ℕ → HttpAttempt) : GenRun :=
  generateGo oracle MAX_RETRIES 0 []

/-! ## Artifact store (`electron/studio/image-store.ts`)

File contents are irrelevant to the claims; a file is identified by which
fresh UUID named it and which directory it was written to. Disk and
database-write failures are modelled by an oracle (`none` = the step
succeeds, `some msg` = the step throws `msg`). -/

/-- `MAX_REFERENCE_IMAGE_BYTES` from `image-store.ts`. -/
def MAX_REFERENCE_IMAGE_BYTES : ℕ := 20 * 1024 * 1024

/-- A file path produced by the artifact store: the original image file,
its thumbnail, or a reference-image file, each named by a fresh UUID. -/
inductive StorePath where
  | original (id : ℕ)
  | thumb (id : ℕ)
  | reference (id : ℕ)
deriving DecidableEq, Repr

/-- The UUID embedded in a store path. -/
def StorePath.uuid : StorePath → ℕ
  | .original id => id
  | .thumb id => id
  | .reference id => id

/-- An `images` table row (the fields `insertImage` writes, minus the
opaque pass-through fields). -/
structure ImageRow where
  id : ℕ
  projectId : Option ℕ
  prompt : String
  model : ModelName
  resolution : Option Resolution
  usedSearch : Bool
  modelText : Option String
  filePath : StorePath
  thumbPath : StorePath
  width : Option ℕ
  height : Option ℕ
  fileSize : ℕ
  parentId : Option ℕ
  generationMs : ℕ
  costEstimate : ℚ
deriving DecidableEq, Repr

/-- A `reference_images` table row. -/
structure ReferenceImageRow where
  id : ℕ
  imageId : ℕ
  filePath : StorePath
  label : Option ReferenceLabel
  position : ℕ
deriving DecidableEq, Repr

/-- The artifact store's world: files on disk, the `images` and
`reference_images` tables, and the fresh-UUID counter. -/
structure FSState where
  files : List StorePath
  images : List ImageRow
  refs : List ReferenceImageRow
  nextUuid : ℕ
deriving DecidableEq, Repr

/-- `fs.writeFile`. -/
def writeFile (fs : FSState) (p : StorePath) : FSState :=
  { fs with files := fs.files ++ [p] }

/-- `removeFileIfExists` from `image-store.ts` (`fs.rm` with
`force: true`): removes the path if present, succeeds either way. -/
def removeFileIfExists (fs : FSState) (p : StorePath) : FSState :=
  { fs with files := fs.files.filter fun q => ¬ q = p }

/-- `insertImage` from `db.ts`. -/
def insertImage (fs : FSState) (row : ImageRow) : FSState :=
  { fs with images := fs.images ++ [row] }

/-- `deleteImageHard` from `db.ts`. -/
def deleteImageHard (fs : FSState) (imageId : ℕ) : FSState :=
  { fs with images := fs.images.filter fun row => ¬ row.id = imageId }

/-- `getImageById` lookup against the `images` table. -/
def getImageById (fs : FSState) (imageId : ℕ) : Option ImageRow :=
  fs.images.find? fun row => row.id = imageId

/-- `insertReferenceImage` from `db.ts`. -/
def insertReferenceImage (fs : FSState) (row : ReferenceImageRow) : FSState :=
  { fs with refs := fs.refs ++ [row] }

/-- `deleteReferenceImageById` from `db.ts`. -/
def deleteReferenceImageById (fs : FSState) (refId : ℕ) : FSState :=
  { fs with refs := fs.refs.filter fun row => ¬ row.id = refId }

/-- `deleteReferenceImagesByImageId` from `db.ts`. -/
def deleteReferenceImagesByImageId (fs : FSState) (imageId : ℕ) : FSState :=
  { fs with refs := fs.refs.filter fun row => ¬ row.imageId = imageId }

/-- The whitespace stripping of `decodeBase64Payload`
(`value.trim().replace` of every whitespace run with the empty string). -/
def stripWhitespace (value : String) : String :=
  String.mk (value.data.filter fun c => ¬ c.isWhitespace)

/-- A base64 alphabet character (`[A-Za-z0-9+/]`). -/
def isBase64Char (c : Char) : Bool :=
  c.isAlphanum ∨ c = '+' ∨ c = '/'

/-- `isLikelyBase64` from `image-store.ts`: length divisible by 4 and
matching one or more alphabet characters followed by at most two `=`
(`^[A-Za-z0-9+/]+={0,2}$`); the trailing `=` run is computed by dropping
`=` from the reversed character list. -/
def isLikelyBase64 (value : String) : Bool :=
  let cs := value.data
  let core := (cs.reverse.dropWhile fun c => c = '=').reverse
  cs.length % 4 = 0 ∧ cs.length ≤ core.length + 2 ∧
    1 ≤ core.length ∧ core.all isBase64Char

/-- The `padding` computation of `estimateBase64Bytes`
(`endsWith '==' ? 2 : endsWith '=' ? 1 : 0`). -/
def base64Padding (cs : List Char) : ℕ :=
  if cs.reverse.take 2 = ['=', '='] then 2
  else if cs.reverse.take 1 = ['='] then 1
  else 0

/-- `estimateBase64Bytes` from `image-store.ts`:
`max 0 (floor (3len/4) - padding)` (natural subtraction supplies the
`Math.max(0, ...)`). -/
def estimateBase64Bytes (value : String) : ℕ :=
  value.data.length * 3 / 4 - base64Padding value.data

/-- `decodeBase64Payload` from `image-store.ts`, returning the decoded
byte length (for validated base64 of length `L` with `p` padding chars,
`Buffer.from` yields exactly `3L/4 - p` bytes, which is what
`estimateBase64Bytes` computes). -/
def decodeBase64Payload (value : String) (label : String) (maxBytes : Option ℕ) :
    Except String ℕ :=
  let normalized := stripWhitespace value
  if normalized = "" then .error (label ++ " ist leer.")
  else if ¬ isLikelyBase64 normalized then
    .error (label ++ " hat kein gueltiges Base64-Format.")
  else
    let estimatedBytes := estimateBase64Bytes normalized
    if overMax estimatedBytes maxBytes then .error (label ++ oversizedSuffix maxBytes)
    else if estimatedBytes = 0 then .error (label ++ " konnte nicht dekodiert werden.")
    else if overMax estimatedBytes maxBytes then .error (label ++ oversizedSuffix maxBytes)
    else .ok estimatedBytes
where
  /-- `maxBytes != null && bytes > maxBytes`. -/
  overMax (byteCount : ℕ) (maxBytes : Option ℕ) : Bool :=
    match maxBytes with
    | none => false
    | some m => m < byteCount
  /-- The tail of the oversize error message (`formatBytes` detail elided). -/
  oversizedSuffix (maxBytes : Option ℕ) : String :=
    " ist groesser als " ++ toString (maxBytes.getD 0 / (1024 * 1024)) ++ " MB."

/-- The outcome oracle for the effectful steps of `persistGeneratedImage`
and `persistReferenceImages`: `none` means the step succeeds, `some msg`
means it throws. `metadataDims` is what `sharp(...).metadata()` reports
when it succeeds. -/
structure PersistOracle where
  mkdirErr : Option String := none
  writeOriginalErr : Option String := none
  metadataErr : Option String := none
  metadataDims : Option ℕ × Option ℕ := (none, none)
  thumbErr : Option String := none
  insertImageErr : Option String := none
  refWriteErr : ℕ → Option String := fun _ => none
  refInsertErr : ℕ → Option String := fun _ => none

/-- The rollback of `persistReferenceImages`'s catch block: delete every
inserted row (by id, in order), then remove every written file. -/
def rollbackRefs (fs : FSState) (insertedReferenceIds : List ℕ) (writtenPaths : List StorePath) :
    FSState :=
  writtenPaths.foldl removeFileIfExists
    (insertedReferenceIds.foldl deleteReferenceImageById fs)

/-- The loop of `persistReferenceImages` (`image-store.ts`, lines
504-531): per reference, draw a fresh id, decode (bounded at 20 MB), write
the file, insert the row — accumulating inserted ids and written paths —
and on any failure roll the accumulated work back and re-throw. -/
def persistRefsGo (oracle : PersistOracle) (imageId : ℕ) :
    List ReferenceImagePayload → ℕ → FSState → List ℕ → List StorePath →
    FSState × Except String Unit
  | [], _, fs, _, _ => (fs, .ok ())
  | ref :: rest, index, fs, insertedIds, writtenPaths =>
      let refId := fs.nextUuid
      let fs1 : FSState := { fs with nextUuid := fs.nextUuid + 1 }
      let refPath := StorePath.reference refId
      match decodeBase64Payload ref.dataBase64 ("Referenzbild " ++ toString (index + 1))
          (some MAX_REFERENCE_IMAGE_BYTES) with
      | .error e => (rollbackRefs fs1 insertedIds writtenPaths, .error e)
      | .ok _ =>
          match oracle.refWriteErr index with
          | some e => (rollbackRefs fs1 insertedIds writtenPaths, .error e)
          | none =>
              let fs2 := writeFile fs1 refPath
              let writtenPaths' := writtenPaths ++ [refPath]
              match oracle.refInsertErr index with
              | some e => (rollbackRefs fs2 insertedIds writtenPaths', .error e)
              | none =>
                  let fs3 := insertReferenceImage fs2
                    { id := refId
                      imageId := imageId
                      filePath := refPath
                      label := ref.label
                      position := index }
                  persistRefsGo oracle imageId rest (index + 1) fs3
                    (insertedIds ++ [refId]) writtenPaths'

/-- `persistReferenceImages` from `image-store.ts`: no-op for an absent or
empty reference list, else the tracked loop. -/
def persistReferenceImages (oracle : PersistOracle) (fs : FSState) (imageId : ℕ)
    (request : GenerationRequest) : FSState × Except String Unit :=
  match request.referenceImages.getD [] with
  | [] => (fs, .ok ())
  | refs => persistRefsGo oracle imageId refs 0 fs [] []

/-- The input of `persistGeneratedImage`. -/
structure PersistInput where
  request : GenerationRequest
  generatedMimeType : String
  generatedDataBase64 : String
  modelText : Option String
  generationMs : ℕ
  costEstimate : ℚ

/-- The catch block of `persistGeneratedImage`: if the image row was
already inserted, delete its reference rows and then the row itself; then
remove the original and thumbnail files (if present). -/
def persistRollback (fs : FSState) (imageInserted : Bool) (imageId : ℕ)
    (originalPath thumbPath : StorePath) : FSState :=
  let fs1 :=
    if imageInserted then deleteImageHard (deleteReferenceImagesByImageId fs imageId) imageId
    else fs
  removeFileIfExists (removeFileIfExists fs1 originalPath) thumbPath

/-- `persistGeneratedImage` from `image-store.ts` (lines 387-446): decode
the payload, write the original, probe dimensions, write the thumbnail,
insert the image row, persist the reference images; any failure after the
decode triggers the rollback of everything done so far before the error is
re-raised. -/
def persistGeneratedImage (oracle : PersistOracle) (fs : FSState) (input : PersistInput) :
    FSState × Except String ℕ :=
  let imageId := fs.nextUuid
  let fs0 : FSState := { fs with nextUuid := fs.nextUuid + 1 }
  let originalPath := StorePath.original imageId
  let thumbPath := StorePath.thumb imageId
  match decodeBase64Payload input.generatedDataBase64 "Generiertes Bild" none with
  | .error e => (fs0, .error e)
  | .ok byteLength =>
      match oracle.mkdirErr with
      | some e => (persistRollback fs0 false imageId originalPath thumbPath, .error e)
      | none =>
          match oracle.writeOriginalErr with
          | some e => (persistRollback fs0 false imageId originalPath thumbPath, .error e)
          | none =>
              let fs1 := writeFile fs0 originalPath
              match oracle.metadataErr with
              | some e => (persistRollback fs1 false imageId originalPath thumbPath, .error e)
              | none =>
                  match oracle.thumbErr with
                  | some e => (persistRollback fs1 false imageId originalPath thumbPath, .error e)
                  | none =>
                      let fs2 := writeFile fs1 thumbPath
                      match oracle.insertImageErr with
                      | some e =>
                          (persistRollback fs2 false imageId originalPath thumbPath, .error e)
                      | none =>
                          let fs3 := insertImage fs2
                            { id := imageId
                              projectId := input.request.projectId
                              prompt := input.request.prompt
                              model := input.request.model
                              resolution := input.request.resolution
                              usedSearch := input.request.useGoogleSearch
                              modelText := input.modelText
                              filePath := originalPath
                              thumbPath := thumbPath
                              width := oracle.metadataDims.1
                              height := oracle.metadataDims.2
                              fileSize := byteLength
                              parentId := input.request.parentId
                              generationMs := input.generationMs
                              costEstimate := input.costEstimate }
                          match persistReferenceImages oracle fs3 imageId input.request with
                          | (fs4, .error e) =>
                              (persistRollback fs4 true imageId originalPath thumbPath, .error e)
                          | (fs4, .ok _) => (fs4, .ok imageId)

/-- The scheduler's inductive invariant: the in-flight counter agrees with
the number of `running` rows, that number never exceeds the clamp ceiling 8,
the concurrency limit itself is clamped into `[1, 8]`, and job ids are
unique and below the fresh-id counter. -/
def QInv (s : QState) : Prop :=
  s.activeRuns = countRunning s.jobs ∧
  countRunning s.jobs ≤ 8 ∧
  1 ≤ s.concurrency ∧ s.concurrency ≤ 8 ∧
  (s.jobs.map QueueJob.id).Nodup ∧
  (∀ i ∈ s.jobs.map QueueJob.id, i < s.nextId)

/-- Well-formedness of the artifact store's world: every stored row id,
owning image id and file-name UUID was drawn from the fresh-UUID counter,
so all are below `nextUuid`. Any state reachable from the empty store
satisfies this. -/
def FSWF (fs : FSState) : Prop :=
  (∀ row ∈ fs.images, row.id < fs.nextUuid) ∧
  (∀ row ∈ fs.refs, row.id < fs.nextUuid ∧ row.imageId < fs.nextUuid) ∧
  (∀ p ∈ fs.files, p.uuid < fs.nextUuid)

instance : Fintype ModelName :=
  ⟨⟨{ModelName.gemini3ProImagePreview, ModelName.gemini25FlashImage,
      ModelName.gemini25FlashImagePreview}, by decide⟩, by
    intro x; cases x <;> decide⟩

/-! ## Theorems -/

/-- C9 counterexample: the resolution domain of `shared/types.ts` is
`{1K, 2K, 4K}` — no `Resolution` value has wire form `"512px"` — and the
fast-tier downgrade maps an explicit `2K` request to `1K`, not to any
512px tier. -/
theorem resolution_domain_counterexample :
    (¬ ∃ r : Resolution, r.wire = "512px") ∧
    normalizeResolutionForModel .gemini25FlashImage (some .r2K) = some .r1K := by
  constructor
  · rintro ⟨r, hr⟩
    cases r <;> simp [Resolution.wire] at hr
  · rfl

/-- C9 (amended): the resolution domain is `{1K, 2K, 4K}`; for the two
fast-tier (flash) models any requested resolution is silently downgraded to
`1K`, the lowest supported tier; the pro model passes the request through;
an absent resolution stays absent. -/
theorem fast_model_resolution_downgrade :
    (∀ m : ModelName, normalizeResolutionForModel m none = none) ∧
    (∀ r : Resolution,
      normalizeResolutionForModel .gemini25FlashImage (some r) = some .r1K ∧
      normalizeResolutionForModel .gemini25FlashImagePreview (some r) = some .r1K ∧
      normalizeResolutionForModel .gemini3ProImagePreview (some r) = some r) ∧
    (∀ r : Resolution, Resolution.rank .r1K ≤ r.rank) ∧
    (∀ r : Resolution, r.wire = "1K" ∨ r.wire = "2K" ∨ r.wire = "4K") := by
  refine ⟨fun m => rfl, fun r => ⟨rfl, rfl, rfl⟩, fun r => ?_, fun r => ?_⟩
  · cases r <;> decide
  · cases r <;> simp [Resolution.wire]

/-- C10: `normalizeSpendLimit` treats `null`/`undefined`, `NaN` and every
non-positive value as "no limit"; positive limits are rounded to three
decimal places; `getPublicConfig` exposes exactly the normalized limits;
and a `null` limit never rejects in `assertSingleLimit`, so a stored limit
of `0` disables admission control for its window. -/
theorem spend_limit_normalization :
    normalizeSpendLimit none = none ∧
    normalizeSpendLimit (some .nan) = none ∧
    (∀ q : ℚ, q ≤ 0 → normalizeSpendLimit (some (.num q)) = none) ∧
    (∀ q : ℚ, 0 < q →
      normalizeSpendLimit (some (.num q)) = some ((round (q * 1000) : ℚ) / 1000)) ∧
    (∀ cfg : StudioConfigFile,
      getPublicConfig cfg =
        { monthlySpendLimitUsd := normalizeSpendLimit cfg.monthlySpendLimitUsd
          totalSpendLimitUsd := normalizeSpendLimit cfg.totalSpendLimitUsd }) ∧
    (∀ (label : String) (spent reserved extra : ℚ),
      assertSingleLimit label none spent reserved extra = none) := by
  refine ⟨rfl, rfl, fun q h => ?_, fun q h => ?_, fun cfg => rfl, fun _ _ _ _ => rfl⟩
  · simp [normalizeSpendLimit, h]
  · simp [normalizeSpendLimit, toFixed3, not_le.mpr h]

/-- C10 witness: a configured limit of `0` normalizes to "no limit", and a
small positive limit survives (already at 3 decimals). -/
theorem spend_limit_normalization_witness :
    normalizeSpendLimit (some (.num 0)) = none ∧
    normalizeSpendLimit (some (.num (5 / 1000))) = some (5 / 1000) := by
  constructor
  · exact spend_limit_normalization.2.2.1 0 le_rfl
  · rw [spend_limit_normalization.2.2.2.1 (5 / 1000) (by norm_num)]
    norm_num

/-- After `requeueRunningJobs` no row is `running`. -/
lemma countRunning_requeue (jobs : List QueueJob) :
    countRunning (requeueRunningJobs jobs) = 0 := by
  rw [countRunning, requeueRunningJobs, ← List.countP_eq_length_filter, List.countP_map,
    List.countP_eq_zero]
  intro j _
  by_cases h : j.status = QueueStatus.running <;> simp [h, Function.comp]

/-- C6: `requeueRunningJobs` leaves zero `running` rows; pointwise, a
`running` row becomes `pending` with `startedAt`, `completedAt` and `error`
cleared and every other row is untouched; and the `GenerationQueue`
constructor applies this recovery to the stored table before kicking the
dispatch loop. -/
theorem requeueRunningJobs_resets_running :
    (∀ jobs : List QueueJob, countRunning (requeueRunningJobs jobs) = 0) ∧
    (∀ (jobs : List QueueJob) (i : ℕ),
      (requeueRunningJobs jobs)[i]? = (jobs[i]?).map fun j =>
        if j.status = QueueStatus.running then
          { j with status := QueueStatus.pending, startedAt := none, completedAt := none,
                   error := none }
        else j) ∧
    (∀ storedJobs conc cfg sm sa ni no,
      mkQueue storedJobs conc cfg sm sa ni no =
        kick (initState storedJobs conc cfg sm sa ni no) ∧
      (initState storedJobs conc cfg sm sa ni no).jobs = requeueRunningJobs storedJobs ∧
      countRunning (initState storedJobs conc cfg sm sa ni no).jobs = 0) := by
  refine ⟨countRunning_requeue, fun jobs i => ?_,
    fun storedJobs conc cfg sm sa ni no => ⟨rfl, rfl, ?_⟩⟩
  · simp [requeueRunningJobs, List.getElem?_map]
  · exact countRunning_requeue storedJobs

/-- C8: `cancel` returns true exactly when the job exists and is still
`pending`; in every other case it returns false and leaves the state
untouched; on success the pending row (and only it) becomes `cancelled`. -/
theorem cancel_pending_only :
    ∀ (s : QState) (jobId : ℕ),
      ((cancel s jobId).2 = true ↔
        ∃ j, getQueueJobById s.jobs jobId = some j ∧ j.status = QueueStatus.pending) ∧
      ((cancel s jobId).2 = false → (cancel s jobId).1 = s) ∧
      ((cancel s jobId).2 = true →
        (cancel s jobId).1 = { s with jobs := markQueueJobCancelled s.jobs jobId s.now } ∧
        ∀ i : ℕ,
          (markQueueJobCancelled s.jobs jobId s.now)[i]? = (s.jobs[i]?).map fun j =>
            if j.id = jobId ∧ j.status = QueueStatus.pending then
              { j with status := QueueStatus.cancelled, completedAt := some s.now }
            else j) := by
  intro s jobId
  have hpt : ∀ i : ℕ,
      (markQueueJobCancelled s.jobs jobId s.now)[i]? = (s.jobs[i]?).map fun j =>
        if j.id = jobId ∧ j.status = QueueStatus.pending then
          { j with status := QueueStatus.cancelled, completedAt := some s.now }
        else j := by
    intro i; simp [markQueueJobCancelled, List.getElem?_map]
  unfold cancel
  cases h : getQueueJobById s.jobs jobId with
  | none =>
      dsimp only
      refine ⟨⟨fun hco => Bool.noConfusion hco, ?_⟩, fun _ => rfl,
        fun hco => Bool.noConfusion hco⟩
      rintro ⟨j, hj, hjp⟩
      cases hj
  | some job =>
      dsimp only
      by_cases hp : job.status = QueueStatus.pending
      · rw [if_pos hp]
        exact ⟨⟨fun _ => ⟨job, rfl, hp⟩, fun _ => rfl⟩,
          fun hco => Bool.noConfusion hco, fun _ => ⟨rfl, hpt⟩⟩
      · rw [if_neg hp]
        refine ⟨⟨fun hco => Bool.noConfusion hco, ?_⟩, fun _ => rfl,
          fun hco => Bool.noConfusion hco⟩
        rintro ⟨j, hj, hjp⟩
        injection hj with hj'
        exact absurd (hj' ▸ hjp) hp

/-- C8 witness: cancelling a nonexistent job in a concrete empty queue
returns false and leaves the state unchanged. -/
theorem cancel_pending_only_witness :
    (cancel { jobs := [], activeRuns := 0, concurrency := 1, paused := false, nextId := 0,
              now := 0, spentMonth := 0, spentAll := 0,
              config := ⟨none, none⟩ } 0).1 =
      { jobs := [], activeRuns := 0, concurrency := 1, paused := false, nextId := 0,
        now := 0, spentMonth := 0, spentAll := 0, config := ⟨none, none⟩ } :=
  (cancel_pending_only _ 0).2.1 rfl

/-- Invariant-carrying characterization of the retry loop `generateGo`:
entered with `attempts` finished (all of them retryable failures) and the
matching backoff history, it finishes within `MAX_RETRIES` attempts, its
delay list is exactly the doubling backoff sequence, every non-final
attempt failed retryably, and the final result is the final attempt's
outcome. -/
lemma generateGo_behavior (oracle : ℕ → HttpAttempt) :
    ∀ (fuel attempts : ℕ) (delays : List ℕ),
      fuel + attempts = MAX_RETRIES → 1 ≤ fuel →
      delays = (List.range attempts).map (fun i => RETRY_BASE_DELAY_MS * 2 ^ i) →
      attempts < (generateGo oracle fuel attempts delays).attempts ∧
      (generateGo oracle fuel attempts delays).attempts ≤ MAX_RETRIES ∧
      (generateGo oracle fuel attempts delays).delays =
        (List.range ((generateGo oracle fuel attempts delays).attempts - 1)).map
          (fun i => RETRY_BASE_DELAY_MS * 2 ^ i) ∧
      (∀ k, attempts < k → k < (generateGo oracle fuel attempts delays).attempts →
        ∃ e, generateOnce (oracle k) = .error e ∧ e.isRetryable = true) ∧
      (∀ r, (generateGo oracle fuel attempts delays).result = .ok r →
        generateOnce (oracle (generateGo oracle fuel attempts delays).attempts) = .ok r) ∧
      (∀ e, (generateGo oracle fuel attempts delays).result = .error e →
        generateOnce (oracle (generateGo oracle fuel attempts delays).attempts) =
          .error e) := by
  intro fuel
  induction fuel with
  | zero => intro attempts delays _ hfuel _; omega
  | succ fuel ih =>
      intro attempts delays hsum _ hdelays
      rw [generateGo]
      cases hg : generateOnce (oracle (attempts + 1)) with
      | ok r =>
          dsimp only
          refine ⟨Nat.lt_succ_self _, by omega, ?_,
            fun k hk1 hk2 => absurd hk2 (by omega),
            fun r' hr' => ?_, fun e' he' => ?_⟩
          · simpa using hdelays
          · cases hr'; exact hg
          · cases he'
      | error e =>
          dsimp only
          by_cases hc : e.isRetryable = true ∧ attempts + 1 < MAX_RETRIES
          · rw [if_pos hc]
            have hrec := ih (attempts + 1)
              (delays ++ [RETRY_BASE_DELAY_MS * 2 ^ (attempts + 1 - 1)])
              (by omega) (by omega)
              (by
                rw [hdelays, List.range_succ, List.map_append]
                simp)
            refine ⟨by omega, hrec.2.1, hrec.2.2.1, fun k hk1 hk2 => ?_,
              hrec.2.2.2.2.1, hrec.2.2.2.2.2⟩
            rcases Nat.lt_or_ge (attempts + 1) k with hk | hk
            · exact hrec.2.2.2.1 k hk hk2
            · have hke : k = attempts + 1 := by omega
              exact hke ▸ ⟨e, hg, hc.1⟩
          · rw [if_neg hc]
            refine ⟨Nat.lt_succ_self _, by dsimp only; omega, ?_,
              fun k hk1 hk2 => absurd hk2 (by dsimp only; omega),
              fun r' hr' => Except.noConfusion hr',
              fun e' he' => ?_⟩
            · simpa using hdelays
            · cases he'; exact hg

/-- C4: `generate` makes between 1 and 3 attempts; the waits between
attempts are exactly the base delay then twice the base delay; every
non-final attempt ended in a retryable failure (HTTP 429, HTTP ≥ 500, or
the 504-mapped timeout) — so any non-retryable failure is final, aborting
immediately — and the call's result is the outcome of its final attempt. -/
theorem generate_retry_policy (oracle : ℕ → HttpAttempt) :
    1 ≤ (generate oracle).attempts ∧
    (generate oracle).attempts ≤ MAX_RETRIES ∧
    (generate oracle).delays =
      (List.range ((generate oracle).attempts - 1)).map
        (fun i => RETRY_BASE_DELAY_MS * 2 ^ i) ∧
    (∀ k, 1 ≤ k → k < (generate oracle).attempts →
      ∃ e, generateOnce (oracle k) = .error e ∧ e.isRetryable = true) ∧
    (∀ r, (generate oracle).result = .ok r →
      generateOnce (oracle (generate oracle).attempts) = .ok r) ∧
    (∀ e, (generate oracle).result = .error e →
      generateOnce (oracle (generate oracle).attempts) = .error e) := by
  have h := generateGo_behavior oracle MAX_RETRIES 0 [] rfl (by norm_num [MAX_RETRIES])
    (by simp)
  exact ⟨h.1, h.2.1, h.2.2.1, fun k hk1 hk2 => h.2.2.2.1 k hk1 hk2,
    h.2.2.2.2.1, h.2.2.2.2.2⟩

/-- C4 witness: an endpoint that always answers HTTP 503 is retried to
exhaustion — 3 attempts with backoff delays of exactly 800 ms and then
1600 ms — and the final result is the final attempt's 503 error. -/
theorem generate_retry_policy_witness :
    generateOnce
        ((fun _ => HttpAttempt.response 503 ⟨[], none, none⟩)
          (generate fun _ => HttpAttempt.response 503 ⟨[], none, none⟩).attempts) =
      .error (.http 503 "Gemini API request failed with 503") ∧
    (generate fun _ => HttpAttempt.response 503 ⟨[], none, none⟩).delays = [800, 1600] := by
  constructor
  · exact (generate_retry_policy (fun _ => HttpAttempt.response 503 ⟨[], none, none⟩)).2.2.2.2.2
      (.http 503 "Gemini API request failed with 503") rfl
  · rw [(generate_retry_policy fun _ => HttpAttempt.response 503 ⟨[], none, none⟩).2.2.1]
    rfl

/-- C5: an HTTP-successful response carrying zero usable image parts makes
`generateOnce` fail with a plain (non-`GeminiHttpError`, hence
non-retryable) error; when the first attempt is such a response, `generate`
stops after exactly that one attempt with no backoff wait; and every
successful result — of a single attempt or of the whole call — contains at
least one image. -/
theorem generate_zero_image_fatal :
    (∀ (status : ℕ) (body : GeminiBody),
      responseOk status = true → extractImages body = [] →
      generateOnce (.response status body) =
        .error (.plain "Gemini hat fuer diese Anfrage keine Bild-Payload geliefert.")) ∧
    (∀ (oracle : ℕ → HttpAttempt) (status : ℕ) (body : GeminiBody),
      responseOk status = true → extractImages body = [] →
      oracle 1 = .response status body →
      generate oracle =
        ⟨.error (.plain "Gemini hat fuer diese Anfrage keine Bild-Payload geliefert."),
          1, []⟩) ∧
    (∀ (attempt : HttpAttempt) (r : GeminiOnceResult),
      generateOnce attempt = .ok r → r.images ≠ []) ∧
    (∀ (oracle : ℕ → HttpAttempt) (r : GeminiOnceResult),
      (generate oracle).result = .ok r → r.images ≠ []) := by
  have honce : ∀ (status : ℕ) (body : GeminiBody),
      responseOk status = true → extractImages body = [] →
      generateOnce (.response status body) =
        .error (.plain "Gemini hat fuer diese Anfrage keine Bild-Payload geliefert.") := by
    intro status body hok himg
    unfold generateOnce
    dsimp only
    rw [if_pos hok, if_pos himg]
  have hok_images : ∀ (attempt : HttpAttempt) (r : GeminiOnceResult),
      generateOnce attempt = .ok r → r.images ≠ [] := by
    intro attempt r hr
    cases attempt with
    | timeout => cases hr
    | netError m => cases hr
    | response status body =>
        unfold generateOnce at hr
        dsimp only at hr
        by_cases hs : responseOk status = true
        · rw [if_pos hs] at hr
          by_cases himg : extractImages body = []
          · rw [if_pos himg] at hr; cases hr
          · rw [if_neg himg] at hr
            cases hr
            exact himg
        · rw [if_neg hs] at hr; cases hr
  refine ⟨honce, ?_, hok_images, ?_⟩
  · intro oracle status body hok himg h1
    show generateGo oracle (2 + 1) 0 [] = _
    rw [generateGo]
    rw [Nat.zero_add, h1, honce status body hok himg]
    simp [GenError.isRetryable]
  · intro oracle r hr
    have h := generateGo_behavior oracle MAX_RETRIES 0 [] rfl
      (by norm_num [MAX_RETRIES]) (by simp)
    exact hok_images _ r (h.2.2.2.2.1 r hr)

/-- C5 witness: an HTTP-200 response with no candidates yields the
zero-image fatal error. -/
theorem generate_zero_image_fatal_witness :
    generateOnce (.response 200 ⟨[], none, none⟩) =
      .error (.plain "Gemini hat fuer diese Anfrage keine Bild-Payload geliefert.") :=
  generate_zero_image_fatal.1 200 ⟨[], none, none⟩ rfl rfl

/-- The batch cost computed by `enqueue` is strictly positive: both cost
tiers are positive and the normalized batch count is at least 1. -/
lemma enqueue_batch_cost_pos (request : GenerationRequest) :
    0 < estimateCost request.resolution *
      ((min 4 (max 1 (request.batchCount.getD 1)) : ℤ) : ℚ) := by
  have hcost : 0 < estimateCost request.resolution := by
    unfold estimateCost; split <;> norm_num
  have hb : (1 : ℤ) ≤ min 4 (max 1 (request.batchCount.getD 1)) := by
    have h1 : (1 : ℤ) ≤ max 1 (request.batchCount.getD 1) := le_max_left _ _
    omega
  have hbq : (0 : ℚ) < ((min 4 (max 1 (request.batchCount.getD 1)) : ℤ) : ℚ) := by
    exact_mod_cast lt_of_lt_of_le Int.zero_lt_one hb
  exact mul_pos hcost hbq

/-- Characterization of `assertSpendWithinLimits` for a positive
additional cost: it passes exactly when both configured ceilings admit the
projected spend, and a thrown error carries the offending window's label,
spend, reservation, addition and limit. -/
lemma assertSpendWithinLimits_spec (s : QState) (add : ℚ) (excl : Option ℕ)
    (hpos : 0 < add) :
    (assertSpendWithinLimits s add excl = none ↔
      (∀ L, s.config.monthlySpendLimitUsd = some L →
        s.spentMonth + getReservedQueueCost s.jobs excl + add ≤ L) ∧
      (∀ L, s.config.totalSpendLimitUsd = some L →
        s.spentAll + getReservedQueueCost s.jobs excl + add ≤ L)) ∧
    (∀ e, assertSpendWithinLimits s add excl = some e →
      e.reservedQueueCost = getReservedQueueCost s.jobs excl ∧ e.additionalCost = add ∧
      ((e.label = "Monatslimit" ∧ s.config.monthlySpendLimitUsd = some e.limit ∧
          e.currentSpent = s.spentMonth ∧
          e.limit < s.spentMonth + getReservedQueueCost s.jobs excl + add) ∨
        (e.label = "Gesamtlimit" ∧ s.config.totalSpendLimitUsd = some e.limit ∧
          e.currentSpent = s.spentAll ∧
          e.limit < s.spentAll + getReservedQueueCost s.jobs excl + add))) := by
  unfold assertSpendWithinLimits
  rw [if_neg (not_le.mpr hpos)]
  unfold assertSingleLimit
  cases hm : s.config.monthlySpendLimitUsd with
  | none =>
      dsimp only
      cases ht : s.config.totalSpendLimitUsd with
      | none =>
          refine ⟨by simp, fun e he => ?_⟩
          cases he
      | some Lt =>
          dsimp only
          by_cases h : s.spentAll + getReservedQueueCost s.jobs excl + add ≤ Lt
          · rw [if_pos h]
            exact ⟨by simp [h], fun e he => by cases he⟩
          · rw [if_neg h]
            refine ⟨⟨fun hco => Option.noConfusion hco, fun hx => absurd (hx.2 Lt rfl) h⟩,
              fun e he => ?_⟩
            cases he
            exact ⟨rfl, rfl, Or.inr ⟨rfl, rfl, rfl, not_le.mp h⟩⟩
  | some Lm =>
      dsimp only
      by_cases hmok : s.spentMonth + getReservedQueueCost s.jobs excl + add ≤ Lm
      · rw [if_pos hmok]
        dsimp only
        cases ht : s.config.totalSpendLimitUsd with
        | none =>
            refine ⟨by simp [hmok], fun e he => ?_⟩
            cases he
        | some Lt =>
            dsimp only
            by_cases h : s.spentAll + getReservedQueueCost s.jobs excl + add ≤ Lt
            · rw [if_pos h]
              refine ⟨?_, fun e he => by cases he⟩
              constructor
              · intro _
                exact ⟨fun L hL => by cases hL; exact hmok, fun L hL => by cases hL; exact h⟩
              · intro _; rfl
            · rw [if_neg h]
              refine ⟨⟨fun hco => Option.noConfusion hco,
                fun hx => absurd (hx.2 Lt rfl) h⟩, fun e he => ?_⟩
              cases he
              exact ⟨rfl, rfl, Or.inr ⟨rfl, rfl, rfl, not_le.mp h⟩⟩
      · rw [if_neg hmok]
        refine ⟨⟨fun hco => Option.noConfusion hco,
          fun hx => absurd (hx.1 Lm rfl) hmok⟩, fun e he => ?_⟩
        cases he
        exact ⟨rfl, rfl, Or.inl ⟨rfl, rfl, rfl, not_le.mp hmok⟩⟩

/-- Folding `insertQueueJob` appends the new rows in order. -/
lemma foldl_insertQueueJob (newJobs jobs : List QueueJob) :
    newJobs.foldl insertQueueJob jobs = jobs ++ newJobs := by
  induction newJobs generalizing jobs with
  | nil => simp
  | cons a l ih => simp [insertQueueJob, ih]

/-- `enqueue` either propagates the admission error with the state
untouched, or appends the normalized batch of pending rows and kicks. -/
lemma enqueue_eq (s : QState) (request : GenerationRequest) :
    (∃ e, assertSpendWithinLimits s
        (estimateCost request.resolution *
          ((min 4 (max 1 (request.batchCount.getD 1)) : ℤ) : ℚ)) none = some e ∧
      enqueue s request = (s, .error e)) ∨
    (assertSpendWithinLimits s
        (estimateCost request.resolution *
          ((min 4 (max 1 (request.batchCount.getD 1)) : ℤ) : ℚ)) none = none ∧
      enqueue s request =
        (kick { s with
            jobs := s.jobs ++
              (List.range (min 4 (max 1 (request.batchCount.getD 1))).toNat).map (fun i =>
                { id := s.nextId + i, status := .pending,
                  request := { request with batchCount := some 1 },
                  priority := 0, createdAt := s.now }),
            nextId := s.nextId + (min 4 (max 1 (request.batchCount.getD 1))).toNat },
          .ok ((List.range (min 4 (max 1 (request.batchCount.getD 1))).toNat).map
            (s.nextId + ·)))) := by
  cases ha : assertSpendWithinLimits s
      (estimateCost request.resolution *
        ((min 4 (max 1 (request.batchCount.getD 1)) : ℤ) : ℚ)) none with
  | some e => exact Or.inl ⟨e, rfl, by simp only [enqueue, enqueueInsert, ha]⟩
  | none =>
      refine Or.inr ⟨rfl, ?_⟩
      simp only [enqueue, enqueueInsert, ha, foldl_insertQueueJob]

/-- C1: `enqueue` rejects exactly when some configured ceiling is exceeded
by `(confirmed spend in that window) + (cost reserved by open jobs) +
(estimated batch cost)`; an unset ceiling never rejects; on rejection the
state — including the job table — is unchanged and the error names the
exceeded limit together with the current, reserved and attempted
amounts. -/
theorem enqueue_admission_control (s : QState) (request : GenerationRequest) :
    ((∃ e, (enqueue s request).2 = .error e) ↔
      ((∃ L, s.config.monthlySpendLimitUsd = some L ∧
          L < s.spentMonth + getReservedQueueCost s.jobs none +
            estimateCost request.resolution *
              ((min 4 (max 1 (request.batchCount.getD 1)) : ℤ) : ℚ)) ∨
        (∃ L, s.config.totalSpendLimitUsd = some L ∧
          L < s.spentAll + getReservedQueueCost s.jobs none +
            estimateCost request.resolution *
              ((min 4 (max 1 (request.batchCount.getD 1)) : ℤ) : ℚ)))) ∧
    (∀ e, (enqueue s request).2 = .error e →
      (enqueue s request).1 = s ∧
      e.reservedQueueCost = getReservedQueueCost s.jobs none ∧
      e.additionalCost =
        estimateCost request.resolution *
          ((min 4 (max 1 (request.batchCount.getD 1)) : ℤ) : ℚ) ∧
      ((e.label = "Monatslimit" ∧ s.config.monthlySpendLimitUsd = some e.limit ∧
          e.currentSpent = s.spentMonth ∧
          e.limit < s.spentMonth + getReservedQueueCost s.jobs none + e.additionalCost) ∨
        (e.label = "Gesamtlimit" ∧ s.config.totalSpendLimitUsd = some e.limit ∧
          e.currentSpent = s.spentAll ∧
          e.limit < s.spentAll + getReservedQueueCost s.jobs none + e.additionalCost))) := by
  have hpos := enqueue_batch_cost_pos request
  have hchar := assertSpendWithinLimits_spec s
    (estimateCost request.resolution *
      ((min 4 (max 1 (request.batchCount.getD 1)) : ℤ) : ℚ)) none hpos
  rcases enqueue_eq s request with ⟨e0, ha, heq⟩ | ⟨ha, heq⟩
  · obtain ⟨hres, hadd, hcase⟩ := hchar.2 e0 ha
    refine ⟨⟨fun _ => ?_, fun _ => ⟨e0, by rw [heq]⟩⟩, fun e he => ?_⟩
    · rcases hcase with ⟨_, hL, _, hlt⟩ | ⟨_, hL, _, hlt⟩
      · exact Or.inl ⟨e0.limit, hL, hlt⟩
      · exact Or.inr ⟨e0.limit, hL, hlt⟩
    · rw [heq] at he
      have he' : Except.error e0 = Except.error e := he
      cases he'
      exact ⟨by rw [heq], hres, hadd, by rw [hadd]; exact hcase⟩
  · obtain ⟨hmon, htot⟩ := hchar.1.mp ha
    refine ⟨⟨?_, ?_⟩, fun e he => ?_⟩
    · rintro ⟨e, he⟩
      rw [heq] at he
      simp at he
    · rintro (⟨L, hL, hlt⟩ | ⟨L, hL, hlt⟩)
      · exact absurd (hmon L hL) (not_le.mpr hlt)
      · exact absurd (htot L hL) (not_le.mpr hlt)
    · rw [heq] at he
      simp at he

/-- C1 witness: monthly limit $1.00, $0.80 already spent this month, one
open job reserving $0.134 — a further $0.134 batch is rejected
(0.8 + 0.134 + 0.134 > 1). -/
theorem enqueue_admission_control_witness :
    ∃ e, (enqueue
        { jobs := [{ id := 0, status := .pending,
                     request := { model := .gemini3ProImagePreview, prompt := "a" },
                     createdAt := 0 }],
          activeRuns := 0, concurrency := 1, paused := true, nextId := 1, now := 1,
          spentMonth := 8 / 10, spentAll := 8 / 10,
          config := ⟨some 1, none⟩ }
        { model := .gemini3ProImagePreview, prompt := "b" }).2 = Except.error e :=
  (enqueue_admission_control _ _).1.mpr
    (Or.inl ⟨1, rfl, by
      simp only [getReservedQueueCost, listOpenQueueJobs, estimateCost, List.filter,
        List.foldl, reduceCtorEq, if_false]
      norm_num⟩)

/-- C7: an admitted `enqueue` normalizes the requested batch count into
`[1, 4]` (an absent count means 1), creates exactly that many pending rows
— appended to the table in creation order, each storing the request with
`batchCount` forced to `1` — and returns exactly those fresh ids in
creation order before kicking the dispatch loop. -/
theorem enqueue_batch_insertion (s : QState) (request : GenerationRequest) :
    ∀ ids, (enqueue s request).2 = .ok ids →
      (1 : ℤ) ≤ min 4 (max 1 (request.batchCount.getD 1)) ∧
      min 4 (max 1 (request.batchCount.getD 1)) ≤ 4 ∧
      (request.batchCount = none → min 4 (max 1 (request.batchCount.getD 1)) = 1) ∧
      ids = (List.range (min 4 (max 1 (request.batchCount.getD 1))).toNat).map
        (s.nextId + ·) ∧
      ids.length = (min 4 (max 1 (request.batchCount.getD 1))).toNat ∧
      (enqueue s request).1 =
        kick { s with
          jobs := s.jobs ++
            (List.range (min 4 (max 1 (request.batchCount.getD 1))).toNat).map (fun i =>
              { id := s.nextId + i, status := .pending,
                request := { request with batchCount := some 1 },
                priority := 0, createdAt := s.now }),
          nextId := s.nextId + (min 4 (max 1 (request.batchCount.getD 1))).toNat } ∧
      (∀ j ∈ (List.range (min 4 (max 1 (request.batchCount.getD 1))).toNat).map (fun i =>
          { id := s.nextId + i, status := .pending,
            request := { request with batchCount := some 1 },
            priority := 0, createdAt := s.now : QueueJob }),
        j.status = QueueStatus.pending ∧
        j.request = { request with batchCount := some 1 }) := by
  intro ids hid
  rcases enqueue_eq s request with ⟨e, _, heq⟩ | ⟨_, heq⟩
  · rw [heq] at hid
    simp at hid
  · rw [heq] at hid
    have hid' : Except.ok
        ((List.range (min 4 (max 1 (request.batchCount.getD 1))).toNat).map
          (s.nextId + ·)) = Except.ok ids := hid
    injection hid' with hids
    have hmax : (1 : ℤ) ≤ max 1 (request.batchCount.getD 1) := le_max_left _ _
    refine ⟨by omega, by omega, fun hnone => by rw [hnone]; rfl, hids.symm, ?_,
      by rw [heq], fun j hj => ?_⟩
    · rw [← hids]; simp
    · obtain ⟨i, _, rfl⟩ := List.mem_map.mp hj
      exact ⟨rfl, rfl⟩

/-- C7 witness: a batch of 3 on an empty queue with no limits creates job
ids 0, 1, 2 — three rows. -/
theorem enqueue_batch_insertion_witness :
    ([0, 1, 2] : List ℕ).length = (min 4 (max 1 ((some (3 : ℤ)).getD 1))).toNat := by
  have h : (enqueue
      { jobs := [], activeRuns := 0, concurrency := 1, paused := true, nextId := 0,
        now := 0, spentMonth := 0, spentAll := 0, config := ⟨none, none⟩ }
      { model := ModelName.gemini3ProImagePreview, prompt := "b",
        batchCount := some 3 }).2 = .ok [0, 1, 2] := by
    rcases enqueue_eq
        { jobs := [], activeRuns := 0, concurrency := 1, paused := true, nextId := 0,
          now := 0, spentMonth := 0, spentAll := 0, config := ⟨none, none⟩ }
        { model := ModelName.gemini3ProImagePreview, prompt := "b",
          batchCount := some 3 } with ⟨e, ha, _⟩ | ⟨_, heq⟩
    · norm_num [assertSpendWithinLimits, assertSingleLimit, estimateCost] at ha
      cases ha
    · rw [heq]
      rfl
  exact (enqueue_batch_insertion _ _ [0, 1, 2] h).2.2.2.2.1

/-- A lookup for an id at least as large as every stored id finds
nothing. -/
lemma getImageById_fresh (fs : FSState) (n : ℕ)
    (h : ∀ row ∈ fs.images, row.id < n) :
    getImageById fs n = none := by
  refine List.find?_eq_none.mpr fun row hrow => ?_
  simp only [decide_eq_true_eq]
  exact Nat.ne_of_lt (h row hrow)

/-- Folding `deleteReferenceImageById` over ids that cover exactly the
`dead` suffix removes that suffix and nothing else. -/
lemma foldl_delRefById :
    ∀ (ids : List ℕ) (fs : FSState) (keep dead : List ReferenceImageRow),
      fs.refs = keep ++ dead →
      (∀ r ∈ keep, r.id ∉ ids) →
      (∀ r ∈ dead, r.id ∈ ids) →
      ids.foldl deleteReferenceImageById fs = { fs with refs := keep } := by
  intro ids
  induction ids with
  | nil =>
      intro fs keep dead hrefs hkeep hdead
      have hde : dead = [] := by
        cases dead with
        | nil => rfl
        | cons a l => exact absurd (hdead a (List.mem_cons_self a l)) (List.not_mem_nil _)
      subst hde
      simp only [List.foldl_nil]
      rw [List.append_nil] at hrefs
      rw [← hrefs]
  | cons a tl ih =>
      intro fs keep dead hrefs hkeep hdead
      simp only [List.foldl_cons]
      have hdel : deleteReferenceImageById fs a =
          { fs with refs := keep ++ dead.filter (fun r => ¬ r.id = a) } := by
        unfold deleteReferenceImageById
        congr 1
        rw [hrefs, List.filter_append]
        congr 1
        refine List.filter_eq_self.mpr fun r hr => ?_
        simp only [decide_eq_true_eq, decide_not, Bool.not_eq_true']
        simp only [decide_eq_false_iff_not]
        exact fun hc => hkeep r hr (hc ▸ List.mem_cons_self a tl)
      rw [hdel]
      have hres := ih { fs with refs := keep ++ dead.filter (fun r => ¬ r.id = a) }
        keep (dead.filter (fun r => ¬ r.id = a)) rfl
        (fun r hr hmem => hkeep r hr (List.mem_cons_of_mem a hmem))
        (fun r hr => by
          obtain ⟨hrd, hpr⟩ := List.mem_filter.mp hr
          have : r.id ≠ a := by
            simpa using hpr
          cases List.mem_cons.mp (hdead r hrd) with
          | inl h => exact absurd h this
          | inr h => exact h)
      rw [hres]

/-- Folding `removeFileIfExists` over paths that cover exactly the `dead`
suffix removes that suffix and nothing else. -/
lemma foldl_removeFile :
    ∀ (paths : List StorePath) (fs : FSState) (keep dead : List StorePath),
      fs.files = keep ++ dead →
      (∀ p ∈ keep, p ∉ paths) →
      (∀ p ∈ dead, p ∈ paths) →
      paths.foldl removeFileIfExists fs = { fs with files := keep } := by
  intro paths
  induction paths with
  | nil =>
      intro fs keep dead hfiles hkeep hdead
      have hde : dead = [] := by
        cases dead with
        | nil => rfl
        | cons a l => exact absurd (hdead a (List.mem_cons_self a l)) (List.not_mem_nil _)
      subst hde
      simp only [List.foldl_nil]
      rw [List.append_nil] at hfiles
      rw [← hfiles]
  | cons a tl ih =>
      intro fs keep dead hfiles hkeep hdead
      simp only [List.foldl_cons]
      have hdel : removeFileIfExists fs a =
          { fs with files := keep ++ dead.filter (fun p => ¬ p = a) } := by
        unfold removeFileIfExists
        congr 1
        rw [hfiles, List.filter_append]
        congr 1
        refine List.filter_eq_self.mpr fun p hp => ?_
        simp only [decide_eq_true_eq, decide_not, Bool.not_eq_true']
        simp only [decide_eq_false_iff_not]
        exact fun hc => hkeep p hp (hc ▸ List.mem_cons_self a tl)
      rw [hdel]
      have hres := ih { fs with files := keep ++ dead.filter (fun p => ¬ p = a) }
        keep (dead.filter (fun p => ¬ p = a)) rfl
        (fun p hp hmem => hkeep p hp (List.mem_cons_of_mem a hmem))
        (fun p hp => by
          obtain ⟨hpd, hpr⟩ := List.mem_filter.mp hp
          have : p ≠ a := by
            simpa using hpr
          cases List.mem_cons.mp (hdead p hpd) with
          | inl h => exact absurd h this
          | inr h => exact h)
      rw [hres]

/-- The catch-block rollback of `persistReferenceImages` restores exactly
the entry state's rows and files when the accumulators describe what was
added since. -/
lemma rollbackRefs_spec (fs fs0 : FSState) (insRows : List ReferenceImageRow)
    (wri : List StorePath)
    (hf : fs.files = fs0.files ++ wri)
    (hr : fs.refs = fs0.refs ++ insRows)
    (hkeepR : ∀ r ∈ fs0.refs, r.id ∉ insRows.map ReferenceImageRow.id)
    (hkeepF : ∀ p ∈ fs0.files, p ∉ wri) :
    rollbackRefs fs (insRows.map ReferenceImageRow.id) wri =
      { fs with refs := fs0.refs, files := fs0.files } := by
  unfold rollbackRefs
  rw [foldl_delRefById (insRows.map ReferenceImageRow.id) fs fs0.refs insRows hr hkeepR
    (fun r hr' => List.mem_map_of_mem _ hr')]
  rw [foldl_removeFile wri { fs with refs := fs0.refs } fs0.files wri hf hkeepF
    (fun p hp => hp)]

/-- The reference-image persistence loop either succeeds having only
appended rows and files, or fails with every row and file it added since
entry removed again. Stated relative to a base state `fs0` of which the
current state is an extension described by the accumulators. -/
lemma persistRefsGo_spec (oracle : PersistOracle) (imageId : ℕ) :
    ∀ (refs : List ReferenceImagePayload) (index : ℕ) (fs fs0 : FSState)
      (insRows : List ReferenceImageRow) (wri : List StorePath),
      fs.files = fs0.files ++ wri →
      fs.refs = fs0.refs ++ insRows →
      fs.images = fs0.images →
      fs0.nextUuid ≤ fs.nextUuid →
      (∀ r ∈ fs0.refs, r.id < fs0.nextUuid) →
      (∀ p ∈ fs0.files, p.uuid < fs0.nextUuid) →
      (∀ r ∈ insRows, fs0.nextUuid ≤ r.id ∧ r.id < fs.nextUuid) →
      (∀ p ∈ wri, fs0.nextUuid ≤ p.uuid ∧ p.uuid < fs.nextUuid) →
      (∀ e, (persistRefsGo oracle imageId refs index fs
          (insRows.map ReferenceImageRow.id) wri).2 = .error e →
        (persistRefsGo oracle imageId refs index fs
          (insRows.map ReferenceImageRow.id) wri).1.files = fs0.files ∧
        (persistRefsGo oracle imageId refs index fs
          (insRows.map ReferenceImageRow.id) wri).1.refs = fs0.refs ∧
        (persistRefsGo oracle imageId refs index fs
          (insRows.map ReferenceImageRow.id) wri).1.images = fs0.images) ∧
      ((persistRefsGo oracle imageId refs index fs
          (insRows.map ReferenceImageRow.id) wri).2 = .ok () →
        (persistRefsGo oracle imageId refs index fs
          (insRows.map ReferenceImageRow.id) wri).1.images = fs0.images ∧
        ∃ extraF extraR,
          (persistRefsGo oracle imageId refs index fs
            (insRows.map ReferenceImageRow.id) wri).1.files = fs0.files ++ extraF ∧
          (persistRefsGo oracle imageId refs index fs
            (insRows.map ReferenceImageRow.id) wri).1.refs = fs0.refs ++ extraR) := by
  intro refs
  induction refs with
  | nil =>
      intro index fs fs0 insRows wri h1 h2 h3 _ _ _ _ _
      exact ⟨fun e he => Except.noConfusion he,
        fun _ => ⟨h3, wri, insRows, h1, h2⟩⟩
  | cons ref rest ih =>
      intro index fs fs0 insRows wri h1 h2 h3 h4 h5 h6 h7 h8
      have hkeepR : ∀ r ∈ fs0.refs, r.id ∉ insRows.map ReferenceImageRow.id := by
        intro r hr hmem
        obtain ⟨row, hrow, hid⟩ := List.mem_map.mp hmem
        have hlow := h5 r hr
        have hhigh := (h7 row hrow).1
        omega
      have hkeepF : ∀ p ∈ fs0.files, p ∉ wri := by
        intro p hp hmem
        have hlow := h6 p hp
        have hhigh := (h8 p hmem).1
        omega
      have hfreshP : ∀ p ∈ fs0.files ++ wri, ¬ p = StorePath.reference fs.nextUuid := by
        intro p hp hc
        rcases List.mem_append.mp hp with hp0 | hpw
        · have := h6 p hp0
          rw [hc] at this
          simp [StorePath.uuid] at this
          omega
        · have := (h8 p hpw).2
          rw [hc] at this
          simp [StorePath.uuid] at this
      rw [persistRefsGo]
      cases hdec : decodeBase64Payload ref.dataBase64
          ("Referenzbild " ++ toString (index + 1)) (some MAX_REFERENCE_IMAGE_BYTES) with
      | error e0 =>
          dsimp only
          have hrb := rollbackRefs_spec { fs with nextUuid := fs.nextUuid + 1 } fs0
            insRows wri h1 h2 hkeepR hkeepF
          rw [hrb]
          exact ⟨fun e _ => ⟨rfl, rfl, h3⟩, fun hok => Except.noConfusion hok⟩
      | ok byteLength =>
          dsimp only
          cases hw : oracle.refWriteErr index with
          | some e0 =>
              dsimp only
              have hrb := rollbackRefs_spec { fs with nextUuid := fs.nextUuid + 1 } fs0
                insRows wri h1 h2 hkeepR hkeepF
              rw [hrb]
              exact ⟨fun e _ => ⟨rfl, rfl, h3⟩, fun hok => Except.noConfusion hok⟩
          | none =>
              dsimp only
              cases hins : oracle.refInsertErr index with
              | some e0 =>
                  dsimp only
                  have hrb := rollbackRefs_spec
                    (writeFile { fs with nextUuid := fs.nextUuid + 1 }
                      (StorePath.reference fs.nextUuid)) fs0
                    insRows (wri ++ [StorePath.reference fs.nextUuid])
                    (by
                      show (fs.files ++ [StorePath.reference fs.nextUuid]) = _
                      rw [h1, List.append_assoc])
                    h2 hkeepR
                    (by
                      intro p hp hmem
                      rcases List.mem_append.mp hmem with hmw | hmr
                      · exact hkeepF p hp hmw
                      · have hpe := List.mem_singleton.mp hmr
                        exact hfreshP p (List.mem_append.mpr (Or.inl hp)) hpe)
                  rw [hrb]
                  exact ⟨fun e _ => ⟨rfl, rfl, h3⟩, fun hok => Except.noConfusion hok⟩
              | none =>
                  dsimp only
                  have hih := ih (index + 1)
                    (insertReferenceImage
                      (writeFile { fs with nextUuid := fs.nextUuid + 1 }
                        (StorePath.reference fs.nextUuid))
                      { id := fs.nextUuid, imageId := imageId, filePath := StorePath.reference fs.nextUuid, label := ref.label, position := index })
                    fs0
                    (insRows ++ [{ id := fs.nextUuid, imageId := imageId, filePath := StorePath.reference fs.nextUuid, label := ref.label, position := index }])
                    (wri ++ [StorePath.reference fs.nextUuid])
                    (by
                      show (fs.files ++ [StorePath.reference fs.nextUuid]) = _
                      rw [h1, List.append_assoc])
                    (by
                      show (fs.refs ++ [_]) = _
                      rw [h2, List.append_assoc])
                    h3
                    (by
                      show fs0.nextUuid ≤ fs.nextUuid + 1
                      omega)
                    h5 h6
                    (by
                      intro r hr
                      rcases List.mem_append.mp hr with hro | hrn
                      · have := h7 r hro
                        constructor
                        · exact this.1
                        · show r.id < fs.nextUuid + 1
                          omega
                      · have hre := List.mem_singleton.mp hrn
                        subst hre
                        refine ⟨h4, ?_⟩
                        show fs.nextUuid < fs.nextUuid + 1
                        omega)
                    (by
                      intro p hp
                      rcases List.mem_append.mp hp with hpo | hpn
                      · have := h8 p hpo
                        constructor
                        · exact this.1
                        · show p.uuid < fs.nextUuid + 1
                          omega
                      · have hpe := List.mem_singleton.mp hpn
                        subst hpe
                        constructor
                        · show fs0.nextUuid ≤ fs.nextUuid
                          exact h4
                        · show fs.nextUuid < fs.nextUuid + 1
                          omega)
                  simp only [List.map_append, List.map_cons, List.map_nil] at hih
                  exact hih

/-- `persistReferenceImages` either leaves rows/files as they were (plus
nothing) on failure, or only appends on success. -/
lemma persistReferenceImages_spec (oracle : PersistOracle) (fs : FSState) (imageId : ℕ)
    (request : GenerationRequest)
    (h5 : ∀ r ∈ fs.refs, r.id < fs.nextUuid)
    (h6 : ∀ p ∈ fs.files, p.uuid < fs.nextUuid) :
    (∀ e, (persistReferenceImages oracle fs imageId request).2 = .error e →
      (persistReferenceImages oracle fs imageId request).1.files = fs.files ∧
      (persistReferenceImages oracle fs imageId request).1.refs = fs.refs ∧
      (persistReferenceImages oracle fs imageId request).1.images = fs.images) ∧
    ((persistReferenceImages oracle fs imageId request).2 = .ok () →
      (persistReferenceImages oracle fs imageId request).1.images = fs.images ∧
      ∃ extraF, (persistReferenceImages oracle fs imageId request).1.files =
        fs.files ++ extraF) := by
  unfold persistReferenceImages
  cases hr : request.referenceImages.getD [] with
  | nil =>
      dsimp only
      exact ⟨fun e he => Except.noConfusion he, fun _ => ⟨rfl, [], by simp⟩⟩
  | cons a l =>
      dsimp only
      have h := persistRefsGo_spec oracle imageId (a :: l) 0 fs fs [] []
        (by simp) (by simp) rfl le_rfl h5 h6 (by simp) (by simp)
      simp only [List.map_nil] at h
      refine ⟨fun e he => ?_, fun hok => ?_⟩
      · obtain ⟨hf, hrr, hi⟩ := h.1 e he
        exact ⟨hf, hrr, hi⟩
      · obtain ⟨him, eF, _, hfi, _⟩ := h.2 hok
        exact ⟨him, eF, hfi⟩

/-- `find?` by a fresh id over a table extended with exactly that id. -/
lemma find?_append_fresh :
    ∀ (l : List ImageRow) (row : ImageRow) (n : ℕ),
      (∀ r ∈ l, r.id < n) → row.id = n →
      (l ++ [row]).find? (fun r => r.id = n) = some row := by
  intro l
  induction l with
  | nil =>
      intro row n _ hrow
      simp [List.find?, hrow]
  | cons a tl ih =>
      intro row n hlt hrow
      have hne : ¬ a.id = n := Nat.ne_of_lt (hlt a (List.mem_cons_self a tl))
      simp only [List.cons_append, List.find?]
      rw [show (decide (a.id = n)) = false from decide_eq_false hne]
      exact ih row n (fun r hr => hlt r (List.mem_cons_of_mem a hr)) hrow

/-- C2: `persistGeneratedImage` is atomic. If any step after decoding the
payload fails — directory creation, original write, dimension probe,
thumbnail write, image-row insert, or any reference decode/write/insert —
then the file table, image table and reference table are all exactly as
before the call and the attempted image id is not reachable; on success it
returns the fresh image id whose row is stored referencing the original and
thumbnail files, both present on disk. -/
theorem persistGeneratedImage_rollback (oracle : PersistOracle) (fs : FSState)
    (input : PersistInput) (hwf : FSWF fs) :
    (∀ e, (persistGeneratedImage oracle fs input).2 = .error e →
      (persistGeneratedImage oracle fs input).1.files = fs.files ∧
      (persistGeneratedImage oracle fs input).1.images = fs.images ∧
      (persistGeneratedImage oracle fs input).1.refs = fs.refs ∧
      getImageById (persistGeneratedImage oracle fs input).1 fs.nextUuid = none) ∧
    (∀ imageId, (persistGeneratedImage oracle fs input).2 = .ok imageId →
      imageId = fs.nextUuid ∧
      ∃ row, getImageById (persistGeneratedImage oracle fs input).1 imageId = some row ∧
        row.filePath = StorePath.original imageId ∧
        row.thumbPath = StorePath.thumb imageId ∧
        row.filePath ∈ (persistGeneratedImage oracle fs input).1.files ∧
        row.thumbPath ∈ (persistGeneratedImage oracle fs input).1.files) := by
  obtain ⟨hwi, hwr, hwp⟩ := hwf
  have hkeepOT : ∀ p ∈ fs.files,
      p ∉ [StorePath.original fs.nextUuid, StorePath.thumb fs.nextUuid] := by
    intro p hp hmem
    have hb := hwp p hp
    rcases List.mem_cons.mp hmem with h | h
    · rw [h] at hb; simp [StorePath.uuid] at hb
    · rw [List.mem_singleton.mp h] at hb; simp [StorePath.uuid] at hb
  have hfresh : ∀ fsX : FSState, fsX.images = fs.images →
      getImageById fsX fs.nextUuid = none := by
    intro fsX hX
    refine List.find?_eq_none.mpr fun row hrow => ?_
    rw [hX] at hrow
    simp only [decide_eq_true_eq]
    exact Nat.ne_of_lt (hwi row hrow)
  unfold persistGeneratedImage
  cases hdec : decodeBase64Payload input.generatedDataBase64 "Generiertes Bild" none with
  | error e0 =>
      dsimp only
      exact ⟨fun e _ => ⟨rfl, rfl, rfl, hfresh _ rfl⟩, fun imageId hok => Except.noConfusion hok⟩
  | ok byteLength =>
      dsimp only
      have hrbNoWrite : persistRollback { fs with nextUuid := fs.nextUuid + 1 } false
          fs.nextUuid (StorePath.original fs.nextUuid) (StorePath.thumb fs.nextUuid) =
          { fs with nextUuid := fs.nextUuid + 1 } := by
        unfold persistRollback
        rw [if_neg (by simp)]
        show [StorePath.original fs.nextUuid, StorePath.thumb fs.nextUuid].foldl
          removeFileIfExists { fs with nextUuid := fs.nextUuid + 1 } = _
        rw [foldl_removeFile _ _ fs.files [] (by simp) hkeepOT (fun p hp => absurd hp (List.not_mem_nil p))]
      have hrbOrig : persistRollback
          (writeFile { fs with nextUuid := fs.nextUuid + 1 } (StorePath.original fs.nextUuid))
          false fs.nextUuid (StorePath.original fs.nextUuid) (StorePath.thumb fs.nextUuid) =
          { fs with nextUuid := fs.nextUuid + 1 } := by
        unfold persistRollback
        rw [if_neg (by simp)]
        show [StorePath.original fs.nextUuid, StorePath.thumb fs.nextUuid].foldl
          removeFileIfExists
          (writeFile { fs with nextUuid := fs.nextUuid + 1 } (StorePath.original fs.nextUuid)) = _
        rw [foldl_removeFile _ _ fs.files [StorePath.original fs.nextUuid] rfl hkeepOT
          (fun p hp => by rw [List.mem_singleton.mp hp]; exact List.mem_cons_self _ _)]
        rfl
      have hrbBoth : persistRollback
          (writeFile (writeFile { fs with nextUuid := fs.nextUuid + 1 }
            (StorePath.original fs.nextUuid)) (StorePath.thumb fs.nextUuid))
          false fs.nextUuid (StorePath.original fs.nextUuid) (StorePath.thumb fs.nextUuid) =
          { fs with nextUuid := fs.nextUuid + 1 } := by
        unfold persistRollback
        rw [if_neg (by simp)]
        show [StorePath.original fs.nextUuid, StorePath.thumb fs.nextUuid].foldl
          removeFileIfExists
          (writeFile (writeFile { fs with nextUuid := fs.nextUuid + 1 }
            (StorePath.original fs.nextUuid)) (StorePath.thumb fs.nextUuid)) = _
        rw [foldl_removeFile _ _ fs.files
          [StorePath.original fs.nextUuid, StorePath.thumb fs.nextUuid]
          (by show (fs.files ++ [StorePath.original fs.nextUuid]) ++ [StorePath.thumb fs.nextUuid] = _; simp)
          hkeepOT (fun p hp => hp)]
        rfl
      cases hmk : oracle.mkdirErr with
      | some e0 =>
          dsimp only
          rw [hrbNoWrite]
          exact ⟨fun e _ => ⟨rfl, rfl, rfl, hfresh _ rfl⟩,
            fun imageId hok => Except.noConfusion hok⟩
      | none =>
          dsimp only
          cases hwo : oracle.writeOriginalErr with
          | some e0 =>
              dsimp only
              rw [hrbNoWrite]
              exact ⟨fun e _ => ⟨rfl, rfl, rfl, hfresh _ rfl⟩,
                fun imageId hok => Except.noConfusion hok⟩
          | none =>
              dsimp only
              cases hmd : oracle.metadataErr with
              | some e0 =>
                  dsimp only
                  rw [hrbOrig]
                  exact ⟨fun e _ => ⟨rfl, rfl, rfl, hfresh _ rfl⟩,
                    fun imageId hok => Except.noConfusion hok⟩
              | none =>
                  dsimp only
                  cases hth : oracle.thumbErr with
                  | some e0 =>
                      dsimp only
                      rw [hrbOrig]
                      exact ⟨fun e _ => ⟨rfl, rfl, rfl, hfresh _ rfl⟩,
                        fun imageId hok => Except.noConfusion hok⟩
                  | none =>
                      dsimp only
                      cases hii : oracle.insertImageErr with
                      | some e0 =>
                          dsimp only
                          rw [hrbBoth]
                          exact ⟨fun e _ => ⟨rfl, rfl, rfl, hfresh _ rfl⟩,
                            fun imageId hok => Except.noConfusion hok⟩
                      | none =>
                          dsimp only
                          have h5' : ∀ r ∈ fs.refs, r.id < fs.nextUuid + 1 :=
                            fun r hr => Nat.lt_succ_of_lt (hwr r hr).1
                          have h6' : ∀ p ∈ (fs.files ++ [StorePath.original fs.nextUuid]) ++
                              [StorePath.thumb fs.nextUuid], p.uuid < fs.nextUuid + 1 := by
                            intro p hp
                            rcases List.mem_append.mp hp with hp1 | hp2
                            · rcases List.mem_append.mp hp1 with hp0 | hpo
                              · exact Nat.lt_succ_of_lt (hwp p hp0)
                              · rw [List.mem_singleton.mp hpo]
                                simp [StorePath.uuid]
                            · rw [List.mem_singleton.mp hp2]
                              simp [StorePath.uuid]
                          cases hrefs : persistReferenceImages oracle
                              (insertImage
                                (writeFile (writeFile { fs with nextUuid := fs.nextUuid + 1 }
                                  (StorePath.original fs.nextUuid)) (StorePath.thumb fs.nextUuid))
                                { id := fs.nextUuid, projectId := input.request.projectId, prompt := input.request.prompt, model := input.request.model, resolution := input.request.resolution, usedSearch := input.request.useGoogleSearch, modelText := input.modelText, filePath := StorePath.original fs.nextUuid, thumbPath := StorePath.thumb fs.nextUuid, width := oracle.metadataDims.1, height := oracle.metadataDims.2, fileSize := byteLength, parentId := input.request.parentId, generationMs := input.generationMs, costEstimate := input.costEstimate })
                              fs.nextUuid input.request with
                          | mk fs4 res =>
                            have hsp := persistReferenceImages_spec oracle
                              (insertImage
                                (writeFile (writeFile { fs with nextUuid := fs.nextUuid + 1 }
                                  (StorePath.original fs.nextUuid)) (StorePath.thumb fs.nextUuid))
                                { id := fs.nextUuid, projectId := input.request.projectId, prompt := input.request.prompt, model := input.request.model, resolution := input.request.resolution, usedSearch := input.request.useGoogleSearch, modelText := input.modelText, filePath := StorePath.original fs.nextUuid, thumbPath := StorePath.thumb fs.nextUuid, width := oracle.metadataDims.1, height := oracle.metadataDims.2, fileSize := byteLength, parentId := input.request.parentId, generationMs := input.generationMs, costEstimate := input.costEstimate })
                              fs.nextUuid input.request h5' h6'
                            rw [hrefs] at hsp
                            cases res with
                            | error e0 =>
                                dsimp only at hsp ⊢
                                obtain ⟨hf4, hr4, hi4⟩ := hsp.1 e0 rfl
                                simp only [insertImage, writeFile] at hf4 hr4 hi4
                                have hdelR : deleteReferenceImagesByImageId fs4 fs.nextUuid
                                    = fs4 := by
                                  unfold deleteReferenceImagesByImageId
                                  rw [List.filter_eq_self.mpr ?_]
                                  · intro r hr
                                    rw [hr4] at hr
                                    simp only [decide_eq_true_eq, decide_not,
                                      Bool.not_eq_true', decide_eq_false_iff_not]
                                    exact Nat.ne_of_lt (hwr r hr).2
                                have hdelI : deleteImageHard fs4 fs.nextUuid =
                                    { fs4 with images := fs.images } := by
                                  unfold deleteImageHard
                                  congr 1
                                  rw [hi4, List.filter_append,
                                    List.filter_eq_self.mpr ?_]
                                  · simp
                                  · intro r hr
                                    simp only [decide_eq_true_eq, decide_not,
                                      Bool.not_eq_true', decide_eq_false_iff_not]
                                    exact Nat.ne_of_lt (hwi r hr)
                                have hroll : persistRollback fs4 true fs.nextUuid
                                    (StorePath.original fs.nextUuid)
                                    (StorePath.thumb fs.nextUuid) =
                                    { fs4 with images := fs.images, files := fs.files } := by
                                  unfold persistRollback
                                  rw [if_pos rfl, hdelR, hdelI]
                                  show [StorePath.original fs.nextUuid,
                                    StorePath.thumb fs.nextUuid].foldl removeFileIfExists
                                    { fs4 with images := fs.images } = _
                                  rw [foldl_removeFile _ _ fs.files
                                    [StorePath.original fs.nextUuid, StorePath.thumb fs.nextUuid]
                                    (by
                                      show fs4.files = _
                                      rw [hf4]
                                      simp)
                                    hkeepOT (fun p hp => hp)]
                                rw [hroll]
                                refine ⟨fun e _ => ⟨rfl, rfl, ?_, hfresh _ rfl⟩,
                                  fun imageId hok => Except.noConfusion hok⟩
                                show fs4.refs = fs.refs
                                rw [hr4]
                            | ok u =>
                                dsimp only at hsp ⊢
                                obtain ⟨hi4, extraF, hf4⟩ := hsp.2 rfl
                                simp only [insertImage, writeFile] at hf4 hi4
                                refine ⟨fun e he => Except.noConfusion he,
                                  fun imageId hok => ?_⟩
                                have hid : fs.nextUuid = imageId := by
                                  have : Except.ok (ε := String) fs.nextUuid =
                                      Except.ok imageId := hok
                                  injection this
                                subst hid
                                refine ⟨rfl, ?_⟩
                                refine ⟨{ id := fs.nextUuid, projectId := input.request.projectId, prompt := input.request.prompt, model := input.request.model, resolution := input.request.resolution, usedSearch := input.request.useGoogleSearch, modelText := input.modelText, filePath := StorePath.original fs.nextUuid, thumbPath := StorePath.thumb fs.nextUuid, width := oracle.metadataDims.1, height := oracle.metadataDims.2, fileSize := byteLength, parentId := input.request.parentId, generationMs := input.generationMs, costEstimate := input.costEstimate }, ?_, rfl, rfl, ?_, ?_⟩
                                · show getImageById fs4 fs.nextUuid = _
                                  unfold getImageById
                                  rw [hi4]
                                  exact find?_append_fresh fs.images _ fs.nextUuid hwi rfl
                                · show StorePath.original fs.nextUuid ∈ fs4.files
                                  rw [hf4]
                                  simp
                                · show StorePath.thumb fs.nextUuid ∈ fs4.files
                                  rw [hf4]
                                  simp

/-- C2 witness: with a thumbnail-write failure injected after the original
file was written, a concrete persist call on an empty store leaves zero
files and the attempted image id unreachable. -/
theorem persistGeneratedImage_rollback_witness :
    (persistGeneratedImage { thumbErr := some "disk" } ⟨[], [], [], 0⟩ { request := { model := .gemini3ProImagePreview, prompt := "p" }, generatedMimeType := "image/png", generatedDataBase64 := "QUJD", modelText := none, generationMs := 5, costEstimate := 0 }).1.files = [] ∧
    getImageById (persistGeneratedImage { thumbErr := some "disk" } ⟨[], [], [], 0⟩ { request := { model := .gemini3ProImagePreview, prompt := "p" }, generatedMimeType := "image/png", generatedDataBase64 := "QUJD", modelText := none, generationMs := 5, costEstimate := 0 }).1 0 = none := by
  have h := (persistGeneratedImage_rollback { thumbErr := some "disk" } ⟨[], [], [], 0⟩
    { request := { model := .gemini3ProImagePreview, prompt := "p" }, generatedMimeType := "image/png", generatedDataBase64 := "QUJD", modelText := none, generationMs := 5, costEstimate := 0 }
    ⟨by simp, by simp, by simp⟩).1 "disk" rfl
  exact ⟨h.1, h.2.2.2⟩

/-- The best-of fold inside `getNextPendingJob` only ever returns its
accumulator or a member of the list. -/
lemma pickBest_mem :
    ∀ (l : List QueueJob) (acc : Option QueueJob) (j : QueueJob),
      l.foldl (fun best j =>
        match best with
        | none => some j
        | some b => if jobOrderedBefore j b then some j else some b) acc = some j →
      acc = some j ∨ j ∈ l := by
  intro l
  induction l with
  | nil => intro acc j h; exact Or.inl h
  | cons a tl ih =>
      intro acc j h
      rcases ih _ j h with hacc | hmem
      · cases acc with
        | none =>
            simp only at hacc
            exact Or.inr (List.mem_cons.mpr (Or.inl (Option.some.inj hacc).symm))
        | some b =>
            simp only at hacc
            by_cases hcmp : jobOrderedBefore a b = true
            · rw [if_pos hcmp] at hacc
              exact Or.inr (List.mem_cons.mpr (Or.inl (Option.some.inj hacc).symm))
            · rw [if_neg hcmp] at hacc
              exact Or.inl hacc
      · exact Or.inr (List.mem_cons_of_mem a hmem)

/-- `getNextPendingJob` returns a pending member of the table. -/
lemma getNextPendingJob_mem (jobs : List QueueJob) (j : QueueJob)
    (h : getNextPendingJob jobs = some j) :
    j ∈ jobs ∧ j.status = QueueStatus.pending := by
  rcases pickBest_mem _ none j h with hacc | hmem
  · cases hacc
  · obtain ⟨hmem', hpred⟩ := List.mem_filter.mp hmem
    exact ⟨hmem', by simpa using hpred⟩

/-- Mapping a row-updating function that preserves ids preserves the id
list. -/
lemma map_id_of_pointwise (jobs : List QueueJob) (f : QueueJob → QueueJob)
    (h : ∀ j, (f j).id = j.id) :
    (jobs.map f).map QueueJob.id = jobs.map QueueJob.id := by
  rw [List.map_map]
  exact List.map_congr_left fun j _ => h j

/-- `markQueueJobRunning` touches no row when no row has the id. -/
lemma markQueueJobRunning_noop (l : List QueueJob) (jobId now : ℕ)
    (h : ∀ x ∈ l, x.id ≠ jobId) :
    markQueueJobRunning l jobId now = l := by
  unfold markQueueJobRunning
  rw [show l.map (fun j =>
      if j.id = jobId then { j with status := QueueStatus.running, startedAt := some now }
      else j) = l.map id from
    List.map_congr_left fun x hx => by rw [if_neg (h x hx)]; rfl]
  exact List.map_id l

/-- Counting running rows distributes over append. -/
lemma countRunning_append (l1 l2 : List QueueJob) :
    countRunning (l1 ++ l2) = countRunning l1 + countRunning l2 := by
  unfold countRunning
  rw [List.filter_append, List.length_append]

/-- A running member makes the running count positive. -/
lemma countRunning_pos (jobs : List QueueJob) (j : QueueJob) (hmem : j ∈ jobs)
    (hrun : j.status = QueueStatus.running) : 1 ≤ countRunning jobs := by
  unfold countRunning
  have : j ∈ jobs.filter fun x => x.status = QueueStatus.running :=
    List.mem_filter.mpr ⟨hmem, by simp [hrun]⟩
  exact List.length_pos.mpr (List.ne_nil_of_mem this)

/-- Marking a pending row running raises the running count by one. -/
lemma countRunning_markRunning :
    ∀ (jobs : List QueueJob) (j : QueueJob) (now : ℕ),
      j ∈ jobs → j.status = QueueStatus.pending →
      (jobs.map QueueJob.id).Nodup →
      countRunning (markQueueJobRunning jobs j.id now) = countRunning jobs + 1 := by
  intro jobs
  induction jobs with
  | nil => intro j now hmem _ _; cases hmem
  | cons a tl ih =>
      intro j now hmem hpend hnodup
      rw [List.map_cons, List.nodup_cons] at hnodup
      unfold markQueueJobRunning
      rw [List.map_cons]
      rcases List.mem_cons.mp hmem with heq | hmem'
      · subst heq
        rw [if_pos rfl]
        have hnot : ∀ x ∈ tl, x.id ≠ j.id := by
          intro x hx hc
          exact hnodup.1 (hc ▸ List.mem_map_of_mem QueueJob.id hx)
        have htl : markQueueJobRunning tl j.id now = tl :=
          markQueueJobRunning_noop tl j.id now hnot
        unfold markQueueJobRunning at htl
        rw [htl]
        unfold countRunning
        rw [List.filter_cons, List.filter_cons]
        simp [hpend]
      · have hne : ¬ a.id = j.id := by
          intro hc
          exact hnodup.1 (hc ▸ List.mem_map_of_mem QueueJob.id hmem')
        rw [if_neg hne]
        have hrec := ih j now hmem' hpend hnodup.2
        unfold markQueueJobRunning at hrec
        unfold countRunning at hrec ⊢
        rw [List.filter_cons, List.filter_cons]
        by_cases ha : a.status = QueueStatus.running <;> simp [ha, hrec] <;> omega

/-- Marking a running row with a non-running-producing update lowers the
running count by one. -/
lemma countRunning_markTerminal :
    ∀ (jobs : List QueueJob) (f : QueueJob → QueueJob) (j : QueueJob),
      (¬ (f j).status = QueueStatus.running) →
      j ∈ jobs → j.status = QueueStatus.running →
      (jobs.map QueueJob.id).Nodup →
      countRunning (jobs.map fun x => if x.id = j.id then f x else x) + 1 =
        countRunning jobs := by
  intro jobs
  induction jobs with
  | nil => intro f j _ hmem _ _; cases hmem
  | cons a tl ih =>
      intro f j hf hmem hrun hnodup
      rw [List.map_cons, List.nodup_cons] at hnodup
      rw [List.map_cons]
      rcases List.mem_cons.mp hmem with heq | hmem'
      · subst heq
        rw [if_pos rfl]
        have hnot : ∀ x ∈ tl, ¬ x.id = j.id := by
          intro x hx hc
          exact hnodup.1 (hc ▸ List.mem_map_of_mem QueueJob.id hx)
        have htl : (tl.map fun x => if x.id = j.id then f x else x) = tl := by
          rw [show (tl.map fun x => if x.id = j.id then f x else x) = tl.map id from
            List.map_congr_left fun x hx => by rw [if_neg (hnot x hx)]; rfl]
          exact List.map_id tl
        rw [htl]
        unfold countRunning
        rw [List.filter_cons, List.filter_cons]
        simp [hrun, hf]
      · have hne : ¬ a.id = j.id := by
          intro hc
          exact hnodup.1 (hc ▸ List.mem_map_of_mem QueueJob.id hmem')
        rw [if_neg hne]
        have hrec := ih f j hf hmem' hrun hnodup.2
        unfold countRunning at hrec ⊢
        rw [List.filter_cons, List.filter_cons]
        by_cases ha : a.status = QueueStatus.running <;> simp [ha] <;> omega

/-- A pointwise running-status-preserving row update preserves the running
count. -/
lemma countRunning_map_congr (jobs : List QueueJob) (f : QueueJob → QueueJob)
    (h : ∀ x ∈ jobs, ((f x).status = QueueStatus.running) ↔
      (x.status = QueueStatus.running)) :
    countRunning (jobs.map f) = countRunning jobs := by
  unfold countRunning
  rw [← List.countP_eq_length_filter, ← List.countP_eq_length_filter, List.countP_map]
  refine List.countP_congr fun x hx => ?_
  simp only [Function.comp_apply, decide_eq_true_eq]
  exact h x hx

/-- Marking a row running preserves the id list. -/
lemma map_id_markRunning (jobs : List QueueJob) (jobId now : ℕ) :
    (markQueueJobRunning jobs jobId now).map QueueJob.id = jobs.map QueueJob.id := by
  unfold markQueueJobRunning
  exact map_id_of_pointwise jobs _ fun j => by by_cases h : j.id = jobId <;> simp [h]

/-- `clampConcurrency` lands in `[1, 8]`. -/
lemma clampConcurrency_bounds (q : ℚ) :
    1 ≤ clampConcurrency q ∧ clampConcurrency q ≤ 8 := by
  unfold clampConcurrency
  have h2 : min 8 (max 1 ⌊q⌋) ≤ 8 := min_le_left _ _
  have h3 : (1 : ℤ) ≤ min 8 (max 1 ⌊q⌋) := le_min (by norm_num) (le_max_left _ _)
  omega

/-- The dispatch loop body: keeps the counter synchronized with the
running count, preserves the id list, the limit, the paused flag and the
fresh-id counter, and never pushes the running count above
`max (initial running count) concurrency`. -/
lemma kickAux_spec :
    ∀ (fuel : ℕ) (s : QState),
      s.activeRuns = countRunning s.jobs →
      (s.jobs.map QueueJob.id).Nodup →
      (kickAux fuel s).activeRuns = countRunning (kickAux fuel s).jobs ∧
      (kickAux fuel s).jobs.map QueueJob.id = s.jobs.map QueueJob.id ∧
      (kickAux fuel s).concurrency = s.concurrency ∧
      (kickAux fuel s).paused = s.paused ∧
      (kickAux fuel s).nextId = s.nextId ∧
      countRunning (kickAux fuel s).jobs ≤ max (countRunning s.jobs) s.concurrency := by
  intro fuel
  induction fuel with
  | zero => intro s ha _; exact ⟨ha, rfl, rfl, rfl, rfl, le_max_left _ _⟩
  | succ fuel ih =>
      intro s ha hnodup
      rw [kickAux]
      by_cases hlt : s.activeRuns < s.concurrency
      · rw [if_pos hlt]
        cases hnext : getNextPendingJob s.jobs with
        | none => exact ⟨ha, rfl, rfl, rfl, rfl, le_max_left _ _⟩
        | some j =>
            dsimp only
            obtain ⟨hjmem, hjpend⟩ := getNextPendingJob_mem s.jobs j hnext
            have hcount : countRunning (markQueueJobRunning s.jobs j.id s.now) =
                countRunning s.jobs + 1 :=
              countRunning_markRunning s.jobs j s.now hjmem hjpend hnodup
            have hids : (startJob s j.id).jobs.map QueueJob.id = s.jobs.map QueueJob.id :=
              map_id_markRunning s.jobs j.id s.now
            have hrec := ih (startJob s j.id)
              (by
                show s.activeRuns + 1 = countRunning (markQueueJobRunning s.jobs j.id s.now)
                rw [hcount, ha])
              (by rw [hids]; exact hnodup)
            refine ⟨hrec.1, hrec.2.1.trans hids, hrec.2.2.1, hrec.2.2.2.1,
              hrec.2.2.2.2.1, ?_⟩
            have hs' : countRunning (startJob s j.id).jobs = countRunning s.jobs + 1 :=
              hcount
            have hb := hrec.2.2.2.2.2
            rw [hs'] at hb
            have hle : countRunning s.jobs + 1 ≤ s.concurrency := by omega
            rw [show (startJob s j.id).concurrency = s.concurrency from rfl] at hb
            rw [max_eq_right hle] at hb
            exact le_trans hb (le_max_right _ _)
      · rw [if_neg hlt]
        exact ⟨ha, rfl, rfl, rfl, rfl, le_max_left _ _⟩

/-- `kick` satisfies the same contract as its loop body. -/
lemma kick_spec (s : QState) (ha : s.activeRuns = countRunning s.jobs)
    (hnodup : (s.jobs.map QueueJob.id).Nodup) :
    (kick s).activeRuns = countRunning (kick s).jobs ∧
    (kick s).jobs.map QueueJob.id = s.jobs.map QueueJob.id ∧
    (kick s).concurrency = s.concurrency ∧
    (kick s).paused = s.paused ∧
    (kick s).nextId = s.nextId ∧
    countRunning (kick s).jobs ≤ max (countRunning s.jobs) s.concurrency := by
  unfold kick
  by_cases hp : s.paused
  · rw [if_pos hp]
    exact ⟨ha, rfl, rfl, rfl, rfl, le_max_left _ _⟩
  · rw [if_neg hp]
    exact kickAux_spec s.jobs.length s ha hnodup

/-- `kick` preserves the scheduler invariant, keeps the limit, and bounds
the resulting running count by `max (previous running count) limit`. -/
lemma QInv_kick (s : QState) (h : QInv s) :
    QInv (kick s) ∧ (kick s).concurrency = s.concurrency ∧
    countRunning (kick s).jobs ≤ max (countRunning s.jobs) s.concurrency := by
  obtain ⟨ha, h8, hc1, hc8, hnodup, hbound⟩ := h
  have hks := kick_spec s ha hnodup
  refine ⟨⟨hks.1, ?_, ?_, ?_, ?_, ?_⟩, hks.2.2.1, hks.2.2.2.2.2⟩
  · exact le_trans hks.2.2.2.2.2 (max_le h8 hc8)
  · rw [hks.2.2.1]; exact hc1
  · rw [hks.2.2.1]; exact hc8
  · rw [hks.2.1]; exact hnodup
  · rw [hks.2.1, hks.2.2.2.2.1]; exact hbound

/-- One scheduler transition preserves the invariant; transitions other
than `setConcurrency` also preserve `running count ≤ limit`. -/
lemma stepQ_inv (s : QState) (a : QAct) (h : QInv s) :
    QInv (stepQ s a) ∧
    ((∀ q : ℚ, a ≠ QAct.setConcurrencyQ q) →
      countRunning s.jobs ≤ s.concurrency →
      countRunning (stepQ s a).jobs ≤ (stepQ s a).concurrency) := by
  obtain ⟨ha, h8, hc1, hc8, hnodup, hbound⟩ := h
  cases a with
  | enqueueReq request =>
      dsimp only [stepQ]
      rcases enqueue_eq s request with ⟨e, _, heq⟩ | ⟨_, heq⟩
      · rw [heq]
        exact ⟨⟨ha, h8, hc1, hc8, hnodup, hbound⟩, fun _ hcc => hcc⟩
      · rw [heq]
        dsimp only
        have hcnew : countRunning ((List.range
            (min 4 (max 1 (request.batchCount.getD 1))).toNat).map (fun i =>
            ({ id := s.nextId + i, status := .pending,
               request := { request with batchCount := some 1 },
               priority := 0, createdAt := s.now } : QueueJob))) = 0 := by
          rw [countRunning, ← List.countP_eq_length_filter, List.countP_map,
            List.countP_eq_zero]
          intro i _
          simp [Function.comp]
        have hcapp : countRunning (s.jobs ++ (List.range
            (min 4 (max 1 (request.batchCount.getD 1))).toNat).map (fun i =>
            ({ id := s.nextId + i, status := .pending,
               request := { request with batchCount := some 1 },
               priority := 0, createdAt := s.now } : QueueJob))) = countRunning s.jobs := by
          rw [countRunning_append, hcnew]
          omega
        have hids : (s.jobs ++ (List.range
            (min 4 (max 1 (request.batchCount.getD 1))).toNat).map (fun i =>
            ({ id := s.nextId + i, status := .pending,
               request := { request with batchCount := some 1 },
               priority := 0, createdAt := s.now } : QueueJob))).map QueueJob.id =
            s.jobs.map QueueJob.id ++ (List.range
            (min 4 (max 1 (request.batchCount.getD 1))).toNat).map (s.nextId + ·) := by
          rw [List.map_append, List.map_map]
          congr 1
        have hnodup' : ((s.jobs ++ (List.range
            (min 4 (max 1 (request.batchCount.getD 1))).toNat).map (fun i =>
            ({ id := s.nextId + i, status := .pending,
               request := { request with batchCount := some 1 },
               priority := 0, createdAt := s.now } : QueueJob))).map QueueJob.id).Nodup := by
          rw [hids]
          refine List.Nodup.append hnodup
            (List.Nodup.map (fun x y hxy => by omega) (List.nodup_range _)) ?_
          intro i hi hi2
          obtain ⟨k, _, hk⟩ := List.mem_map.mp hi2
          have := hbound i hi
          omega
        have hbound' : ∀ i ∈ (s.jobs ++ (List.range
            (min 4 (max 1 (request.batchCount.getD 1))).toNat).map (fun i =>
            ({ id := s.nextId + i, status := .pending,
               request := { request with batchCount := some 1 },
               priority := 0, createdAt := s.now } : QueueJob))).map QueueJob.id,
            i < s.nextId + (min 4 (max 1 (request.batchCount.getD 1))).toNat := by
          rw [hids]
          intro i hi
          rcases List.mem_append.mp hi with hio | hin
          · have := hbound i hio
            omega
          · obtain ⟨k, hk, hke⟩ := List.mem_map.mp hin
            have := List.mem_range.mp hk
            omega
        have hinv' : QInv { s with
            jobs := s.jobs ++ (List.range
              (min 4 (max 1 (request.batchCount.getD 1))).toNat).map (fun i =>
              ({ id := s.nextId + i, status := .pending,
                 request := { request with batchCount := some 1 },
                 priority := 0, createdAt := s.now } : QueueJob)),
            nextId := s.nextId + (min 4 (max 1 (request.batchCount.getD 1))).toNat } := by
          refine ⟨?_, ?_, hc1, hc8, hnodup', hbound'⟩
          · show s.activeRuns = _
            rw [hcapp]
            exact ha
          · show countRunning (s.jobs ++ _) ≤ 8
            rw [hcapp]
            exact h8
        have hk := QInv_kick _ hinv'
        refine ⟨hk.1, fun _ hcc => ?_⟩
        have hb := hk.2.2
        rw [hk.2.1]
        rw [show countRunning ({ s with
            jobs := s.jobs ++ (List.range
              (min 4 (max 1 (request.batchCount.getD 1))).toNat).map (fun i =>
              ({ id := s.nextId + i, status := .pending,
                 request := { request with batchCount := some 1 },
                 priority := 0, createdAt := s.now } : QueueJob)),
            nextId := s.nextId + (min 4 (max 1 (request.batchCount.getD 1))).toNat }
              : QState).jobs = countRunning s.jobs from hcapp] at hb
        rw [max_eq_right hcc] at hb
        exact hb
  | finish jobId outcome =>
      dsimp only [stepQ]
      unfold finishRun
      cases hlook : getQueueJobById s.jobs jobId with
      | none =>
          exact ⟨⟨ha, h8, hc1, hc8, hnodup, hbound⟩, fun _ hcc => hcc⟩
      | some job =>
          dsimp only
          have hjmem : job ∈ s.jobs := List.mem_of_find?_eq_some hlook
          have hjid : job.id = jobId := by
            have := List.find?_some hlook
            simpa using this
          by_cases hrun : job.status = QueueStatus.running
          · rw [if_pos hrun]
            subst hjid
            have hpos : 1 ≤ countRunning s.jobs := countRunning_pos s.jobs job hjmem hrun
            cases outcome with
            | success imageId =>
                dsimp only
                have hdec : countRunning (markQueueJobCompleted s.jobs job.id imageId s.now)
                    + 1 = countRunning s.jobs := by
                  unfold markQueueJobCompleted
                  exact countRunning_markTerminal s.jobs _ job (by simp) hjmem hrun hnodup
                have hids : (markQueueJobCompleted s.jobs job.id imageId s.now).map
                    QueueJob.id = s.jobs.map QueueJob.id := by
                  unfold markQueueJobCompleted
                  exact map_id_of_pointwise s.jobs _
                    (fun j => by by_cases hj : j.id = job.id <;> simp [hj])
                have hinv' : QInv { s with
                    jobs := markQueueJobCompleted s.jobs job.id imageId s.now,
                    spentMonth := s.spentMonth + estimateCost job.request.resolution,
                    spentAll := s.spentAll + estimateCost job.request.resolution,
                    activeRuns := s.activeRuns - 1 } := by
                  refine ⟨?_, ?_, hc1, hc8, ?_, ?_⟩
                  · show s.activeRuns - 1 =
                      countRunning (markQueueJobCompleted s.jobs job.id imageId s.now)
                    omega
                  · show countRunning (markQueueJobCompleted s.jobs job.id imageId s.now) ≤ 8
                    omega
                  · show ((markQueueJobCompleted s.jobs job.id imageId s.now).map
                      QueueJob.id).Nodup
                    rw [hids]
                    exact hnodup
                  · show ∀ i ∈ (markQueueJobCompleted s.jobs job.id imageId s.now).map
                      QueueJob.id, i < s.nextId
                    rw [hids]
                    exact hbound
                have hk := QInv_kick _ hinv'
                refine ⟨hk.1, fun _ hcc => ?_⟩
                have hb := hk.2.2
                rw [hk.2.1]
                have hle : countRunning (markQueueJobCompleted s.jobs job.id imageId s.now)
                    ≤ s.concurrency := by omega
                rw [show countRunning ({ s with
                    jobs := markQueueJobCompleted s.jobs job.id imageId s.now,
                    spentMonth := s.spentMonth + estimateCost job.request.resolution,
                    spentAll := s.spentAll + estimateCost job.request.resolution,
                    activeRuns := s.activeRuns - 1 } : QState).jobs =
                  countRunning (markQueueJobCompleted s.jobs job.id imageId s.now) from rfl]
                  at hb
                rw [max_eq_right hle] at hb
                exact hb
            | failure message =>
                dsimp only
                have hdec : countRunning (markQueueJobFailed s.jobs job.id message s.now)
                    + 1 = countRunning s.jobs := by
                  unfold markQueueJobFailed
                  exact countRunning_markTerminal s.jobs _ job (by simp) hjmem hrun hnodup
                have hids : (markQueueJobFailed s.jobs job.id message s.now).map
                    QueueJob.id = s.jobs.map QueueJob.id := by
                  unfold markQueueJobFailed
                  exact map_id_of_pointwise s.jobs _
                    (fun j => by by_cases hj : j.id = job.id <;> simp [hj])
                have hinv' : QInv { s with
                    jobs := markQueueJobFailed s.jobs job.id message s.now,
                    activeRuns := s.activeRuns - 1 } := by
                  refine ⟨?_, ?_, hc1, hc8, ?_, ?_⟩
                  · show s.activeRuns - 1 =
                      countRunning (markQueueJobFailed s.jobs job.id message s.now)
                    omega
                  · show countRunning (markQueueJobFailed s.jobs job.id message s.now) ≤ 8
                    omega
                  · show ((markQueueJobFailed s.jobs job.id message s.now).map
                      QueueJob.id).Nodup
                    rw [hids]
                    exact hnodup
                  · show ∀ i ∈ (markQueueJobFailed s.jobs job.id message s.now).map
                      QueueJob.id, i < s.nextId
                    rw [hids]
                    exact hbound
                have hk := QInv_kick _ hinv'
                refine ⟨hk.1, fun _ hcc => ?_⟩
                have hb := hk.2.2
                rw [hk.2.1]
                have hle : countRunning (markQueueJobFailed s.jobs job.id message s.now)
                    ≤ s.concurrency := by omega
                rw [show countRunning ({ s with
                    jobs := markQueueJobFailed s.jobs job.id message s.now,
                    activeRuns := s.activeRuns - 1 } : QState).jobs =
                  countRunning (markQueueJobFailed s.jobs job.id message s.now) from rfl]
                  at hb
                rw [max_eq_right hle] at hb
                exact hb
          · rw [if_neg hrun]
            exact ⟨⟨ha, h8, hc1, hc8, hnodup, hbound⟩, fun _ hcc => hcc⟩
  | cancelJob jobId =>
      dsimp only [stepQ]
      unfold cancel
      cases hlook : getQueueJobById s.jobs jobId with
      | none =>
          exact ⟨⟨ha, h8, hc1, hc8, hnodup, hbound⟩, fun _ hcc => hcc⟩
      | some job =>
          dsimp only
          by_cases hp : job.status = QueueStatus.pending
          · rw [if_pos hp]
            have hcnt : countRunning (markQueueJobCancelled s.jobs jobId s.now) =
                countRunning s.jobs := by
              unfold markQueueJobCancelled
              refine countRunning_map_congr s.jobs _ fun x _ => ?_
              by_cases hx : x.id = jobId ∧ x.status = QueueStatus.pending
              · rw [if_pos hx]
                simp [hx.2]
              · rw [if_neg hx]
            have hids : (markQueueJobCancelled s.jobs jobId s.now).map QueueJob.id =
                s.jobs.map QueueJob.id := by
              unfold markQueueJobCancelled
              exact map_id_of_pointwise s.jobs _ (fun j => by
                by_cases hj : j.id = jobId ∧ j.status = QueueStatus.pending <;> simp [hj])
            refine ⟨⟨?_, ?_, hc1, hc8, ?_, ?_⟩, fun _ hcc => ?_⟩
            · show s.activeRuns = countRunning (markQueueJobCancelled s.jobs jobId s.now)
              rw [hcnt]
              exact ha
            · show countRunning (markQueueJobCancelled s.jobs jobId s.now) ≤ 8
              rw [hcnt]
              exact h8
            · show ((markQueueJobCancelled s.jobs jobId s.now).map QueueJob.id).Nodup
              rw [hids]
              exact hnodup
            · show ∀ i ∈ (markQueueJobCancelled s.jobs jobId s.now).map QueueJob.id,
                i < s.nextId
              rw [hids]
              exact hbound
            · show countRunning (markQueueJobCancelled s.jobs jobId s.now) ≤ s.concurrency
              rw [hcnt]
              exact hcc
          · rw [if_neg hp]
            exact ⟨⟨ha, h8, hc1, hc8, hnodup, hbound⟩, fun _ hcc => hcc⟩
  | pauseQ =>
      dsimp only [stepQ]
      exact ⟨⟨ha, h8, hc1, hc8, hnodup, hbound⟩, fun _ hcc => hcc⟩
  | resumeQ =>
      dsimp only [stepQ]
      have hk := QInv_kick { s with paused := false } ⟨ha, h8, hc1, hc8, hnodup, hbound⟩
      refine ⟨hk.1, fun _ hcc => ?_⟩
      have hb := hk.2.2
      rw [hk.2.1]
      rw [max_eq_right hcc] at hb
      exact hb
  | setConcurrencyQ q =>
      dsimp only [stepQ]
      have hcb := clampConcurrency_bounds q
      have hk := QInv_kick { s with concurrency := clampConcurrency q }
        ⟨ha, h8, hcb.1, hcb.2, hnodup, hbound⟩
      exact ⟨hk.1, fun hne _ => absurd rfl (hne q)⟩

/-- A whole execution preserves the invariant, and — absent any
`setConcurrency` call — also preserves `running count ≤ limit`. -/
lemma applyActs_inv :
    ∀ (acts : List QAct) (s : QState), QInv s →
      QInv (applyActs s acts) ∧
      ((∀ a ∈ acts, ∀ q : ℚ, a ≠ QAct.setConcurrencyQ q) →
        countRunning s.jobs ≤ s.concurrency →
        countRunning (applyActs s acts).jobs ≤ (applyActs s acts).concurrency) := by
  intro acts
  induction acts with
  | nil => intro s h; exact ⟨h, fun _ hcc => hcc⟩
  | cons a tl ih =>
      intro s h
      have hstep := stepQ_inv s a h
      have hrec := ih (stepQ s a) hstep.1
      refine ⟨hrec.1, fun hnone hcc => ?_⟩
      exact hrec.2 (fun b hb q => hnone b (List.mem_cons_of_mem a hb) q)
        (hstep.2 (fun q => hnone a (List.mem_cons_self a tl) q) hcc)

/-- The constructor's state satisfies the invariant with running count
within the (clamped) limit. -/
lemma mkQueue_inv (storedJobs : List QueueJob) (conc : ℚ) (cfg : StudioConfigPublic)
    (sm sa : ℚ) (ni no : ℕ)
    (hnodup : (storedJobs.map QueueJob.id).Nodup)
    (hbound : ∀ i ∈ storedJobs.map QueueJob.id, i < ni) :
    QInv (mkQueue storedJobs conc cfg sm sa ni no) ∧
    countRunning (mkQueue storedJobs conc cfg sm sa ni no).jobs ≤
      (mkQueue storedJobs conc cfg sm sa ni no).concurrency := by
  have hids : (requeueRunningJobs storedJobs).map QueueJob.id =
      storedJobs.map QueueJob.id := by
    unfold requeueRunningJobs
    exact map_id_of_pointwise storedJobs _ (fun j => by
      by_cases h : j.status = QueueStatus.running <;> simp [h])
  have hcb := clampConcurrency_bounds conc
  have hinv0 : QInv (initState storedJobs conc cfg sm sa ni no) := by
    refine ⟨?_, ?_, hcb.1, hcb.2, ?_, ?_⟩
    · show 0 = countRunning (requeueRunningJobs storedJobs)
      rw [countRunning_requeue]
    · show countRunning (requeueRunningJobs storedJobs) ≤ 8
      rw [countRunning_requeue]
      omega
    · show ((requeueRunningJobs storedJobs).map QueueJob.id).Nodup
      rw [hids]
      exact hnodup
    · show ∀ i ∈ (requeueRunningJobs storedJobs).map QueueJob.id, i < ni
      rw [hids]
      exact hbound
  have hk := QInv_kick _ hinv0
  refine ⟨hk.1, ?_⟩
  show countRunning (kick (initState storedJobs conc cfg sm sa ni no)).jobs ≤ _
  have hb := hk.2.2
  rw [show countRunning (initState storedJobs conc cfg sm sa ni no).jobs = 0 from
    countRunning_requeue storedJobs] at hb
  rw [max_eq_right (Nat.zero_le _)] at hb
  rw [show (mkQueue storedJobs conc cfg sm sa ni no).concurrency =
    (kick (initState storedJobs conc cfg sm sa ni no)).concurrency from rfl, hk.2.1]
  exact hb

/-- C3 (amended): `setConcurrency` clamps its argument into `[1, 8]`
(flooring); the dispatch loop starts nothing once the in-flight count
reaches the limit; every completion of a running job decrements the
in-flight counter and re-triggers dispatch; and along every execution from
the constructor the in-flight counter equals the number of `running` rows,
that number never exceeds 8, and — as long as `setConcurrency` is not
invoked — it never exceeds the current concurrency limit. (A `setConcurrency`
call that lowers the limit below the in-flight count leaves the excess
running jobs to drain; see the counterexample.) -/
theorem scheduler_concurrency_invariant :
    (∀ q : ℚ, 1 ≤ clampConcurrency q ∧ clampConcurrency q ≤ 8 ∧
      (clampConcurrency q : ℤ) = min 8 (max 1 ⌊q⌋)) ∧
    (∀ (s : QState) (fuel : ℕ), s.concurrency ≤ s.activeRuns → kickAux fuel s = s) ∧
    (∀ (s : QState) (jobId : ℕ) (outcome : RunOutcome) (job : QueueJob),
      getQueueJobById s.jobs jobId = some job → job.status = QueueStatus.running →
      ∃ s', finishRun s jobId outcome = kick s' ∧ s'.activeRuns = s.activeRuns - 1) ∧
    (∀ (storedJobs : List QueueJob) (conc : ℚ) (cfg : StudioConfigPublic)
      (sm sa : ℚ) (ni no : ℕ) (acts : List QAct),
      (storedJobs.map QueueJob.id).Nodup →
      (∀ i ∈ storedJobs.map QueueJob.id, i < ni) →
      QInv (applyActs (mkQueue storedJobs conc cfg sm sa ni no) acts) ∧
      ((∀ a ∈ acts, ∀ q : ℚ, a ≠ QAct.setConcurrencyQ q) →
        countRunning (applyActs (mkQueue storedJobs conc cfg sm sa ni no) acts).jobs ≤
          (applyActs (mkQueue storedJobs conc cfg sm sa ni no) acts).concurrency)) := by
  refine ⟨fun q => ?_, fun s fuel h => ?_, fun s jobId outcome job hlook hrun => ?_,
    fun storedJobs conc cfg sm sa ni no acts hnodup hbound => ?_⟩
  · obtain ⟨hlo, hhi⟩ := clampConcurrency_bounds q
    refine ⟨hlo, hhi, ?_⟩
    unfold clampConcurrency
    refine Int.toNat_of_nonneg ?_
    have h3 : (1 : ℤ) ≤ min 8 (max 1 ⌊q⌋) := le_min (by norm_num) (le_max_left _ _)
    omega
  · cases fuel with
    | zero => rfl
    | succ f =>
        rw [kickAux, if_neg (not_lt.mpr h)]
  · unfold finishRun
    rw [hlook]
    dsimp only
    rw [if_pos hrun]
    cases outcome with
    | success imageId => exact ⟨_, rfl, rfl⟩
    | failure message => exact ⟨_, rfl, rfl⟩
  · have hmk := mkQueue_inv storedJobs conc cfg sm sa ni no hnodup hbound
    have happ := applyActs_inv acts (mkQueue storedJobs conc cfg sm sa ni no) hmk.1
    exact ⟨happ.1, fun hnone => happ.2 hnone hmk.2⟩

/-- C3 amended witness: on an empty queue constructed with limit 2 and no
further actions, the running count is within the limit. -/
theorem scheduler_concurrency_invariant_witness :
    countRunning (applyActs (mkQueue [] 2 ⟨none, none⟩ 0 0 0 0) []).jobs ≤
      (applyActs (mkQueue [] 2 ⟨none, none⟩ 0 0 0 0) []).concurrency :=
  (scheduler_concurrency_invariant.2.2.2 [] 2 ⟨none, none⟩ 0 0 0 0 []
    (by simp) (by simp)).2 (fun a ha q => absurd ha (List.not_mem_nil a))

/-- C3 counterexample: two pending jobs are dispatched under limit 2; then
`setConcurrency 1` lowers the limit below the two in-flight jobs, reaching
a state whose current concurrency limit (1) is strictly below the number of
`running` jobs (2) — the claimed unconditional bound is false on the
code. -/
theorem concurrency_limit_violation :
    (applyActs (mkQueue
      [{ id := 0, status := .pending, request := { model := .gemini3ProImagePreview, prompt := "a" }, createdAt := 0 },
       { id := 1, status := .pending, request := { model := .gemini3ProImagePreview, prompt := "a" }, createdAt := 1 }]
      2 ⟨none, none⟩ 0 0 2 10) [QAct.setConcurrencyQ 1]).concurrency <
    countRunning (applyActs (mkQueue
      [{ id := 0, status := .pending, request := { model := .gemini3ProImagePreview, prompt := "a" }, createdAt := 0 },
       { id := 1, status := .pending, request := { model := .gemini3ProImagePreview, prompt := "a" }, createdAt := 1 }]
      2 ⟨none, none⟩ 0 0 2 10) [QAct.setConcurrencyQ 1]).jobs := by
  have hc2 : clampConcurrency 2 = 2 := by
    unfold clampConcurrency
    rw [show ⌊(2 : ℚ)⌋ = 2 from by norm_num]
    decide
  have hc1 : clampConcurrency 1 = 1 := by
    unfold clampConcurrency
    rw [show ⌊(1 : ℚ)⌋ = 1 from by norm_num]
    decide
  simp only [applyActs, List.foldl_cons, List.foldl_nil, stepQ, mkQueue, initState, hc1, hc2]
  decide

end Benana
